import Mathlib

/-!
Verification of the cairo-parser analysis pipeline.

This file shallowly embeds the statement parser, CFG builder, dataflow
analyzer and the import linker of the repository, and proves or refutes
the claims of the specification against those embeddings.

Conventions:
- Python strings are `String`, scanned as `List Char`.
- Python `int` depth counters are `Int` (they may go negative on
  unbalanced input); line numbers are `Nat`.
- Python `set` values are `List` values used up to membership; the
  comparisons the source performs on sets are embedded as decidable
  set-equality of lists.
- Each regex of `StatementParser.PATTERNS` is embedded as a hand-written
  scanner with the same matching semantics (leftmost search, greedy
  character classes); the classes `\w`, `\s`, `[^X]+` are spelled out.
-/

namespace CairoParser

/-- `\w` of the source regexes: ASCII letters, digits and underscore. -/
def isWordChar (c : Char) : Bool := c.isAlphanum || c == '_'

/-- `\s` of the source regexes. -/
def isSpaceChar (c : Char) : Bool := c == ' ' || c == '\t' || c == '\n' || c == '\r'

/-- The character `{` (written via its code so that no brace literal appears). -/
def lbrace : Char := Char.ofNat 123

/-- The character `}`. -/
def rbrace : Char := Char.ofNat 125

/-- Substring containment, Python's `pat in s`. -/
def hasSubChars (pat : List Char) : List Char → Bool
  | [] => pat.isEmpty
  | c :: t => pat.isPrefixOf (c :: t) || hasSubChars pat t

def hasSubstr (s pat : String) : Bool := hasSubChars pat.data s.data

/-- Number of occurrences of a character, Python's `line.count(c)`. -/
def countChar (s : String) (c : Char) : Nat := (s.data.filter (· == c)).length

/-- Maximal run of word characters at the head of the list, with the rest. -/
def wordRun : List Char → List Char × List Char
  | [] => ([], [])
  | c :: t =>
    if isWordChar c then
      let (r, rest) := wordRun t
      (c :: r, rest)
    else ([], c :: t)

/-- The identifier tokens of a string, as found by
`re.findall(r'\b([a-zA-Z_][a-zA-Z0-9_]*)\b', expression)`: maximal
word-character runs whose first character is not a digit.  The fuel
argument makes the recursion structural; each step consumes at least one
character, so `identTokens` supplies fuel that can never run out. -/
def identTokensAux : Nat → List Char → List String
  | 0, _ => []
  | _, [] => []
  | fuel + 1, c :: t =>
    if isWordChar c then
      if c.isDigit then identTokensAux fuel (wordRun t).2
      else String.mk (c :: (wordRun t).1) :: identTokensAux fuel (wordRun t).2
    else identTokensAux fuel t

def identTokens (l : List Char) : List String := identTokensAux (l.length + 1) l

/-- `str.strip()`: leading and trailing whitespace removed. -/
def strTrim (s : String) : String :=
  String.mk (((s.data.dropWhile isSpaceChar).reverse.dropWhile isSpaceChar).reverse)

/-- `str.startswith(pat)`. -/
def strStartsWith (s pat : String) : Bool := pat.data.isPrefixOf s.data

/-- `str.lower()` (ASCII, which is all the source feeds it). -/
def strToLower (s : String) : String := String.mk (s.data.map Char.toLower)

/-- `str.split(sep)` for a single-character separator: every occurrence
splits, empty pieces are kept, and the result is never empty. -/
def splitCharAux (sep : Char) : List Char → List Char → List String
  | [], acc => [String.mk acc.reverse]
  | c :: t, acc =>
    if c == sep then String.mk acc.reverse :: splitCharAux sep t []
    else splitCharAux sep t (c :: acc)

def splitChar (sep : Char) (s : String) : List String := splitCharAux sep s.data []

/-- `str.split(sep)` for a non-empty multi-character separator `p :: ps`:
non-overlapping occurrences split left to right, empty pieces kept. -/
def splitStrAux (p : Char) (ps : List Char) : Nat → List Char → List Char → List String
  | 0, _, acc => [String.mk acc.reverse]
  | _, [], acc => [String.mk acc.reverse]
  | fuel + 1, c :: t, acc =>
    if (p :: ps).isPrefixOf (c :: t) then
      String.mk acc.reverse :: splitStrAux p ps fuel (t.drop ps.length) []
    else splitStrAux p ps fuel t (c :: acc)

/-- `str.split(sep)` (the separators the source uses, `::` and `\n`, are
never empty; each step of the fuelled recursion consumes at least one
character, so the fuel can never run out). -/
def strSplitOn (s sep : String) : List String :=
  match sep.data with
  | [] => [s]
  | p :: ps => splitStrAux p ps (s.data.length + 1) s.data []

/-- `str.replace(pat, rep)` for a non-empty pattern `p :: ps`: all
non-overlapping occurrences, left to right. -/
def replaceAux (p : Char) (ps : List Char) (rep : List Char) : Nat → List Char → List Char
  | 0, l => l
  | _, [] => []
  | fuel + 1, c :: t =>
    if (p :: ps).isPrefixOf (c :: t) then
      rep ++ replaceAux p ps rep fuel (t.drop ps.length)
    else c :: replaceAux p ps rep fuel t

def strReplace (s pat rep : String) : String :=
  match pat.data with
  | [] => s
  | p :: ps => String.mk (replaceAux p ps rep.data (s.data.length + 1) s.data)

/-- `'sep'.join(parts)`. -/
def strJoinSep (sep : String) : List String → String
  | [] => ""
  | [x] => x
  | x :: y :: t => String.mk (x.data ++ sep.data ++ (strJoinSep sep (y :: t)).data)

/-- Code-point lexicographic comparison, Python's `<` on strings. -/
def charListLt : List Char → List Char → Bool
  | [], [] => false
  | [], _ :: _ => true
  | _ :: _, [] => false
  | a :: as, b :: bs => if a < b then true else if b < a then false else charListLt as bs

def strLt (a b : String) : Bool := charListLt a.data b.data

/-- Leading whitespace removed, the `\s*` of the regexes. -/
def dropSpaces (l : List Char) : List Char := l.dropWhile isSpaceChar

/-- Length of the leading whitespace run. -/
def leadSpaces (l : List Char) : Nat := (l.takeWhile isSpaceChar).length

/-- Index of the first occurrence of a character, if any. -/
def firstIdx (c : Char) (l : List Char) : Option Nat := l.findIdx? (· == c)

/-- `.strip()` applied to a character list. -/
def stripChars (l : List Char) : String := strTrim (String.mk l)

/-- Leftmost-match search: try the matcher at every start position. -/
def searchMatch (f : List Char → Option α) : List Char → Option α
  | [] => none
  | c :: t => f (c :: t) <|> searchMatch f t

/-- After a control keyword, the tail `\s+([^{]+)\s*\{` of the `if` /
`match` patterns: at least one whitespace, then a non-empty run up to the
first `{`.  The captured condition is returned stripped, as the source
strips it. -/
def afterKeywordCond : List Char → Option String
  | [] => none
  | c :: r =>
    if isSpaceChar c then
      match firstIdx lbrace r with
      | some j => if 1 ≤ j then some (stripChars (r.take j)) else none
      | none => none
    else none

/-- `PATTERNS['if'] = if\s+([^{]+)\s*\{` tried at one position. -/
def tryIf (l : List Char) : Option String :=
  if ['i', 'f'].isPrefixOf l then afterKeywordCond (l.drop 2) else none

/-- `PATTERNS['match'] = match\s+([^{]+)\s*\{` tried at one position. -/
def tryMatch (l : List Char) : Option String :=
  if ['m', 'a', 't', 'c', 'h'].isPrefixOf l then afterKeywordCond (l.drop 5) else none

/-- `PATTERNS['else_if'] = \}\s*else\s+if\s+([^{]+)\s*\{` at one position. -/
def tryElseIf : List Char → Option String
  | [] => none
  | c :: r =>
    if c == rbrace then
      let r₁ := dropSpaces r
      if ['e', 'l', 's', 'e'].isPrefixOf r₁ then
        let r₂ := r₁.drop 4
        match r₂ with
        | d :: _ =>
          if isSpaceChar d then
            let r₃ := dropSpaces r₂
            if ['i', 'f'].isPrefixOf r₃ then afterKeywordCond (r₃.drop 2) else none
          else none
        | [] => none
      else none
    else none

/-- `PATTERNS['else'] = \}\s*else\s*\{` at one position. -/
def tryElse : List Char → Option Unit
  | [] => none
  | c :: r =>
    if c == rbrace then
      let r₁ := dropSpaces r
      if ['e', 'l', 's', 'e'].isPrefixOf r₁ then
        match dropSpaces (r₁.drop 4) with
        | d :: _ => if d == lbrace then some () else none
        | [] => none
      else none
    else none

/-- `PATTERNS['return'] = return\s+([^;]+);|return;` at one position; the
result distinguishes a captured expression from the bare `return;`. -/
def tryReturn (l : List Char) : Option (Option String) :=
  if ['r', 'e', 't', 'u', 'r', 'n'].isPrefixOf l then
    let r := l.drop 6
    match r with
    | c :: r' =>
      if isSpaceChar c then
        match firstIdx ';' r' with
        | some j =>
          if 1 ≤ j then
            -- the greedy `\s+` takes as many spaces as leaves the group
            -- `[^;]+` non-empty; the group is stored unstripped
            let m := min (leadSpaces r') (j - 1)
            some (some (String.mk ((r'.drop m).take (j - m))))
          else none
        | none => none
      else if c == ';' then some none
      else none
    | [] => none
  else none

/-- `PATTERNS['assert'] = assert[!]?\s*\(([^)]+)\)` at one position. -/
def tryAssert (l : List Char) : Option String :=
  if ['a', 's', 's', 'e', 'r', 't'].isPrefixOf l then
    let r := l.drop 6
    let r := if r.head? == some '!' then r.drop 1 else r
    match dropSpaces r with
    | '(' :: r' =>
      match firstIdx ')' r' with
      | some j => if 1 ≤ j then some (String.mk (r'.take j)) else none
      | none => none
    | _ => none
  else none

/-- The tail `(\w+)\s*=\s*([^;]+);` shared by the let-binding and
assignment patterns: a word run, `=`, and a non-empty run up to the first
`;`; the expression is returned stripped, as the source strips it. -/
def varEqExpr (l : List Char) : Option (String × String) :=
  match wordRun l with
  | ([], _) => none
  | (v, r) =>
    match dropSpaces r with
    | '=' :: r₅ =>
      match firstIdx ';' r₅ with
      | some j => if 1 ≤ j then some (String.mk v, stripChars (r₅.take j)) else none
      | none => none
    | _ => none

/-- `PATTERNS['let_binding'] = let\s+(mut\s+)?(\w+)\s*=\s*([^;]+);` at one
position.  The optional `mut` group is tried greedily first and given up
if the rest of the pattern fails, as the regex engine backtracks. -/
def tryLet (l : List Char) : Option (Bool × String × String) :=
  if ['l', 'e', 't'].isPrefixOf l then
    match l.drop 3 with
    | c :: r' =>
      if isSpaceChar c then
        let r₁ := dropSpaces r'
        let withMut : Option (Bool × String × String) :=
          if ['m', 'u', 't'].isPrefixOf r₁ then
            match r₁.drop 3 with
            | d :: _ =>
              if isSpaceChar d then
                (varEqExpr (dropSpaces (r₁.drop 3))).map (fun p => (true, p))
              else none
            | [] => none
          else none
        withMut <|> (varEqExpr r₁).map (fun p => (false, p))
      else none
    | [] => none
  else none

/-- `PATTERNS['assignment'] = (\w+)\s*=\s*([^;]+);` at one position. -/
def tryAssignment (l : List Char) : Option (String × String) := varEqExpr l

/-- `PATTERNS['function_call'] = (\w+)\s*\(([^)]*)\)` at one position. -/
def tryCall (l : List Char) : Option (String × String) :=
  match wordRun l with
  | ([], _) => none
  | (v, r) =>
    match dropSpaces r with
    | '(' :: r₂ =>
      match firstIdx ')' r₂ with
      | some j => some (String.mk v, String.mk (r₂.take j))
      | none => none
    | _ => none

/-- `PATTERNS['storage_read'] = self\.(\w+)\.read\(\)` at one position. -/
def tryStorageRead (l : List Char) : Option String :=
  if ['s', 'e', 'l', 'f', '.'].isPrefixOf l then
    match wordRun (l.drop 5) with
    | ([], _) => none
    | (w, r) =>
      if ['.', 'r', 'e', 'a', 'd', '(', ')'].isPrefixOf r then some (String.mk w) else none
  else none

/-- `PATTERNS['storage_write'] = self\.(\w+)\.write\(([^)]+)\)` at one
position. -/
def tryStorageWrite (l : List Char) : Option (String × String) :=
  if ['s', 'e', 'l', 'f', '.'].isPrefixOf l then
    match wordRun (l.drop 5) with
    | ([], _) => none
    | (w, r) =>
      if ['.', 'w', 'r', 'i', 't', 'e', '('].isPrefixOf r then
        let r₂ := r.drop 7
        match firstIdx ')' r₂ with
        | some j => if 1 ≤ j then some (String.mk w, String.mk (r₂.take j)) else none
        | none => none
      else none
  else none

/-- The statement IR of `analysis/statements.py`, a tagged variant with
the common fields (line, raw_text, block_depth) on every constructor.
`arms` of a match is always empty, as `_parse_line` never fills it. -/
inductive Stmt where
  | letBinding (var_name expr : String) (is_mutable : Bool)
      (line : Nat) (raw_text : String) (block_depth : Int)
  | assignment (var_name expr : String)
      (line : Nat) (raw_text : String) (block_depth : Int)
  | ifS (condition : String) (has_else : Bool)
      (line : Nat) (raw_text : String) (block_depth : Int)
  | elseS (is_else_if : Bool) (condition : Option String)
      (line : Nat) (raw_text : String) (block_depth : Int)
  | matchS (expr : String) (arms : List (String × String))
      (line : Nat) (raw_text : String) (block_depth : Int)
  | ret (expr : Option String)
      (line : Nat) (raw_text : String) (block_depth : Int)
  | call (function_name : String) (arguments : List String) (is_external : Bool)
      (line : Nat) (raw_text : String) (block_depth : Int)
  | storageRead (storage_var : String)
      (line : Nat) (raw_text : String) (block_depth : Int)
  | storageWrite (storage_var value : String)
      (line : Nat) (raw_text : String) (block_depth : Int)
  | assertS (condition : String) (message : Option String)
      (line : Nat) (raw_text : String) (block_depth : Int)
deriving DecidableEq, Repr

/-- The `block_depth` field. -/
def Stmt.depth : Stmt → Int
  | .letBinding _ _ _ _ _ d => d
  | .assignment _ _ _ _ d => d
  | .ifS _ _ _ _ d => d
  | .elseS _ _ _ _ d => d
  | .matchS _ _ _ _ d => d
  | .ret _ _ _ d => d
  | .call _ _ _ _ _ d => d
  | .storageRead _ _ _ d => d
  | .storageWrite _ _ _ _ d => d
  | .assertS _ _ _ _ d => d

/-- The `line` field. -/
def Stmt.lineOf : Stmt → Nat
  | .letBinding _ _ _ n _ _ => n
  | .assignment _ _ n _ _ => n
  | .ifS _ _ n _ _ => n
  | .elseS _ _ n _ _ => n
  | .matchS _ _ n _ _ => n
  | .ret _ n _ _ => n
  | .call _ _ _ n _ _ => n
  | .storageRead _ n _ _ => n
  | .storageWrite _ _ n _ _ => n
  | .assertS _ _ n _ _ => n

/-- Overwrite the `block_depth` field, as `StatementParser.parse` does
after `_parse_line` built the statement with the default depth 0. -/
def Stmt.setDepth : Stmt → Int → Stmt
  | .letBinding a b c n r _, d => .letBinding a b c n r d
  | .assignment a b n r _, d => .assignment a b n r d
  | .ifS a b n r _, d => .ifS a b n r d
  | .elseS a b n r _, d => .elseS a b n r d
  | .matchS a b n r _, d => .matchS a b n r d
  | .ret a n r _, d => .ret a n r d
  | .call a b c n r _, d => .call a b c n r d
  | .storageRead a n r _, d => .storageRead a n r d
  | .storageWrite a b n r _, d => .storageWrite a b n r d
  | .assertS a b n r _, d => .assertS a b n r d

/-- `isinstance(stmt, (IfStmt, ElseStmt, MatchStmt))`. -/
def Stmt.isControl : Stmt → Bool
  | .ifS .. => true
  | .elseS .. => true
  | .matchS .. => true
  | _ => false

def Stmt.isIf : Stmt → Bool
  | .ifS .. => true
  | _ => false

def Stmt.isMatch : Stmt → Bool
  | .matchS .. => true
  | _ => false

def Stmt.isRet : Stmt → Bool
  | .ret .. => true
  | _ => false

def Stmt.isElse : Stmt → Bool
  | .elseS .. => true
  | _ => false

/-- The part of `StatementParser._parse_line` after the storage checks:
if, else-if, else, match, return, assert, let-binding, assignment,
function call, in the priority order of the source. -/
def parseLineRest (stripped : String) (lineNum : Nat) : Option Stmt :=
  let cs := stripped.data
  match searchMatch tryIf cs with
  | some cond => some (.ifS cond false lineNum stripped 0)
  | none =>
  match searchMatch tryElseIf cs with
  | some cond => some (.elseS true (some cond) lineNum stripped 0)
  | none =>
  match searchMatch tryElse cs with
  | some _ => some (.elseS false none lineNum stripped 0)
  | none =>
  match searchMatch tryMatch cs with
  | some e => some (.matchS e [] lineNum stripped 0)
  | none =>
  match searchMatch tryReturn cs with
  | some e => some (.ret e lineNum stripped 0)
  | none =>
  match searchMatch tryAssert cs with
  | some cond => some (.assertS cond none lineNum stripped 0)
  | none =>
  match searchMatch tryLet cs with
  | some (m, v, e) => some (.letBinding v e m lineNum stripped 0)
  | none =>
  match searchMatch tryAssignment cs with
  | some (v, e) => some (.assignment v e lineNum stripped 0)
  | none =>
  match searchMatch tryCall cs with
  | some (f, args) =>
    let argList := ((splitChar ',' args).map strTrim).filter (· ≠ "")
    let ext := hasSubstr (strToLower stripped) "dispatcher" || hasSubstr stripped "::"
    some (.call f argList ext lineNum stripped 0)
  | none => none

/-- `StatementParser._parse_line`: strip the line, skip blanks and
comments, try the storage patterns when `self.` occurs, then fall through
to the remaining matchers. -/
def parseLine (line : String) (lineNum : Nat) : Option Stmt :=
  let stripped := strTrim line
  if stripped = "" then none
  else if strStartsWith stripped "//" then none
  else if hasSubstr stripped "self." then
    match searchMatch tryStorageWrite stripped.data with
    | some (sv, v) => some (.storageWrite sv v lineNum stripped 0)
    | none =>
      match searchMatch tryStorageRead stripped.data with
      | some sv => some (.storageRead sv lineNum stripped 0)
      | none => parseLineRest stripped lineNum
  else parseLineRest stripped lineNum

/-- The body of the per-line loop of `StatementParser.parse`: the depth
recorded on a statement is the depth before the line's braces for control
headers, and that depth plus one for any other statement on a line that
contains a `{`. -/
def parseLines : List String → Nat → Int → List Stmt
  | [], _, _ => []
  | line :: rest, lineNum, depth =>
    let opens : Int := countChar line lbrace
    let closes : Int := countChar line rbrace
    let tail := parseLines rest (lineNum + 1) (depth + opens - closes)
    match parseLine line lineNum with
    | none => tail
    | some s =>
      let d := if s.isControl then depth
               else depth + (if line.data.contains lbrace then 1 else 0)
      s.setDepth d :: tail

/-- `StatementParser.parse`. -/
def parse (functionBody : String) (startLine : Nat) : List Stmt :=
  parseLines (splitChar '\n' functionBody) startLine 0

/-! ## Control-flow graphs (`analysis/cfg.py`) -/

inductive CFGNodeType where
  | entry | exit | statement | branch | merge | loopHeader
deriving DecidableEq, Repr

structure CFGNode where
  id : Nat
  node_type : CFGNodeType
  statement : Option Stmt := none
  successors : List Nat := []
  predecessors : List Nat := []
deriving DecidableEq, Repr

structure ControlFlowGraph where
  function_name : String
  nodes : List CFGNode := []
  entry_node_id : Option Nat := none
  exit_node_ids : List Nat := []
deriving DecidableEq, Repr

/-- `ControlFlowGraph.get_node`: first node with the given id. -/
def ControlFlowGraph.getNode (g : ControlFlowGraph) (i : Nat) : Option CFGNode :=
  g.nodes.find? (fun n => n.id = i)

/-- Append `t` to the successors of the first node with id `f`, unless
already present. -/
def addSucc (f t : Nat) : List CFGNode → List CFGNode
  | [] => []
  | n :: rest =>
    if n.id = f then
      (if t ∈ n.successors then n else { n with successors := n.successors ++ [t] }) :: rest
    else n :: addSucc f t rest

/-- Append `f` to the predecessors of the first node with id `t`, unless
already present. -/
def addPred (f t : Nat) : List CFGNode → List CFGNode
  | [] => []
  | n :: rest =>
    if n.id = t then
      (if f ∈ n.predecessors then n else { n with predecessors := n.predecessors ++ [f] }) :: rest
    else n :: addPred f t rest

/-- `ControlFlowGraph.add_edge`: a no-op when either endpoint is missing,
otherwise record the edge on both endpoint nodes (without duplicates). -/
def ControlFlowGraph.addEdge (g : ControlFlowGraph) (f t : Nat) : ControlFlowGraph :=
  match g.getNode f, g.getNode t with
  | some _, some _ => { g with nodes := addPred f t (addSucc f t g.nodes) }
  | _, _ => g

/-- The builder state: the graph under construction and `node_counter`. -/
structure BuildSt where
  cfg : ControlFlowGraph
  counter : Nat

/-- `CFGBuilder._create_node`. -/
def createNode (ty : CFGNodeType) (st? : Option Stmt) (b : BuildSt) : Nat × BuildSt :=
  (b.counter,
   { cfg := { b.cfg with nodes := b.cfg.nodes ++ [{ id := b.counter, node_type := ty, statement := st? }] },
     counter := b.counter + 1 })

def BuildSt.edge (b : BuildSt) (f t : Nat) : BuildSt := { b with cfg := b.cfg.addEdge f t }

/-- `get_node` at the level of node lists. -/
def findNode (l : List CFGNode) (i : Nat) : Option CFGNode :=
  l.find? (fun n => n.id = i)

/-- The successor update `add_edge` performs on the from-node. -/
def succUpd (t : Nat) (x : CFGNode) : CFGNode :=
  if t ∈ x.successors then x else { x with successors := x.successors ++ [t] }

/-- The predecessor update `add_edge` performs on the to-node. -/
def predUpd (f : Nat) (x : CFGNode) : CFGNode :=
  if f ∈ x.predecessors then x else { x with predecessors := x.predecessors ++ [f] }

/-- The builder invariant: node ids are exactly `0, …, counter-1` in
order, every recorded edge endpoint is an existing node, edges are
consistent between successor and predecessor lists, node 0 (the entry)
has no predecessors and node 1 (the exit) has no successors. -/
def cfgInv (l : List CFGNode) (c : Nat) : Prop :=
  (l.map CFGNode.id = List.range c) ∧
  (∀ i x, findNode l i = some x →
    (∀ u ∈ x.successors, u < c) ∧ (∀ u ∈ x.predecessors, u < c)) ∧
  (∀ i j x y, findNode l i = some x → findNode l j = some y →
    (j ∈ x.successors ↔ i ∈ y.predecessors)) ∧
  (∀ x, findNode l 0 = some x → x.predecessors = []) ∧
  (∀ x, findNode l 1 = some x → x.successors = [])

/-- A builder step from `b` to `b'` that keeps the invariant, never
shrinks the counter and leaves the entry/exit bookkeeping alone. -/
def buildGood (b b' : BuildSt) : Prop :=
  cfgInv b'.cfg.nodes b'.counter ∧ b.counter ≤ b'.counter ∧
  b'.cfg.entry_node_id = b.cfg.entry_node_id ∧
  b'.cfg.exit_node_ids = b.cfg.exit_node_ids

/-- The else-block collection loop of `CFGBuilder._extract_if_blocks`:
statements strictly deeper than the if are collected, the rest (starting
with the statement that closed the block, if any) is left for the caller. -/
def collectElseBlock (d : Int) : List Stmt → List Stmt × List Stmt
  | [] => ([], [])
  | s :: rest =>
    if s.depth ≤ d then ([], s :: rest)
    else
      let (eb, r) := collectElseBlock d rest
      (s :: eb, r)

/-- `CFGBuilder._extract_if_blocks`, operating on the statements after the
if: collect the then-block until an `ElseStmt` at the if's depth (which is
consumed and starts the else-block) or a statement at the if's depth or
shallower (which is left in the remainder). -/
def extractIfBlocks (d : Int) : List Stmt → List Stmt × Option (List Stmt) × List Stmt
  | [] => ([], none, [])
  | s :: rest =>
    if s.isElse && decide (s.depth = d) then
      let (eb, r) := collectElseBlock d rest
      ([], some eb, r)
    else if s.depth ≤ d then ([], none, s :: rest)
    else
      let (tb, ebo, r) := extractIfBlocks d rest
      (s :: tb, ebo, r)

/-- `CFGBuilder._build_sequential`, with `_build_if` and `_build_match`
inlined at their call sites.  The result is the id of the last live node,
or `none` when the walk ended in a `return`.  The index arithmetic of the
source (`next_idx - 1` followed by `i += 1`) is realised by continuing on
the remainder lists produced by the block extraction.  The fuel argument
makes the recursion structural: every recursive call is on a strictly
shorter statement list, so the fuel `buildCFG` supplies (length + 1)
never runs out and the fuel-0 branch is unreachable. -/
def buildSeq : Nat → List Stmt → Nat → Nat → BuildSt → Option Nat × BuildSt
  | 0, _, _, _, b => (none, b)
  | _, [], cur, _, b => (some cur, b)
  | fuel + 1, s :: rest, cur, exitId, b =>
    if s.isIf then
      -- _build_if
      let (bid, b) := createNode .branch (some s) b
      let b := b.edge cur bid
      let ex := extractIfBlocks s.depth rest
      let (mid, b) := createNode .merge none b
      let b :=
        if ex.1.isEmpty then b.edge bid mid
        else
          match buildSeq fuel ex.1 bid exitId b with
          | (some last, b) => b.edge last mid
          | (none, b) => b
      let b :=
        match ex.2.1 with
        | some eb =>
          if eb.isEmpty then b.edge bid mid
          else
            match buildSeq fuel eb bid exitId b with
            | (some last, b) => b.edge last mid
            | (none, b) => b
        | none => b.edge bid mid
      buildSeq fuel ex.2.2 mid exitId b
    else if s.isMatch then
      -- _build_match
      let (bid, b) := createNode .branch (some s) b
      let b := b.edge cur bid
      let (mid, b) := createNode .merge none b
      let body := rest.takeWhile (fun t : Stmt => !(t.depth ≤ s.depth))
      let b :=
        if body.isEmpty then b.edge bid mid
        else
          match buildSeq fuel body bid exitId b with
          | (some last, b) => b.edge last mid
          | (none, b) => b
      buildSeq fuel (rest.dropWhile (fun t : Stmt => !(t.depth ≤ s.depth))) mid exitId b
    else if s.isRet then
      let (nid, b) := createNode .statement (some s) b
      let b := b.edge cur nid
      let b := b.edge nid exitId
      (none, b)
    else
      let (nid, b) := createNode .statement (some s) b
      let b := b.edge cur nid
      buildSeq fuel rest nid exitId b

/-- `CFGBuilder.build`. -/
def buildCFG (fname : String) (stmts : List Stmt) : ControlFlowGraph :=
  let b0 : BuildSt := { cfg := { function_name := fname }, counter := 0 }
  let (eid, b1) := createNode .entry none b0
  let b1 := { b1 with cfg := { b1.cfg with entry_node_id := some eid } }
  let (xid, b2) := createNode .exit none b1
  let b2 := { b2 with cfg := { b2.cfg with exit_node_ids := b2.cfg.exit_node_ids ++ [xid] } }
  if stmts.isEmpty then (b2.edge eid xid).cfg
  else
    match buildSeq (stmts.length + 1) stmts eid xid b2 with
    | (some cur, b3) => (b3.edge cur xid).cfg
    | (none, b3) => b3.cfg

/-- The DFS helper `CFGBuilder._dfs_paths`; the fuel argument is a bound
on the recursion depth, which the per-path visited set keeps below the
node count. -/
def dfsPaths (g : ControlFlowGraph) (maxPaths : Nat) :
    Nat → Nat → List Nat → List Nat → List (List Nat) → List (List Nat)
  | 0, _, _, _, paths => paths
  | fuel + 1, current, path, visited, paths =>
    if maxPaths ≤ paths.length then paths
    else
      let path := path ++ [current]
      let visited := current :: visited
      if current ∈ g.exit_node_ids then paths ++ [path]
      else
        match g.getNode current with
        | none => paths
        | some n =>
          n.successors.foldl
            (fun acc succ => if succ ∈ visited then acc else dfsPaths g maxPaths fuel succ path visited acc)
            paths

/-- `CFGBuilder.find_all_paths` (default `max_paths = 100`). -/
def findAllPaths (g : ControlFlowGraph) (maxPaths : Nat := 100) : List (List Nat) :=
  match g.entry_node_id with
  | none => []
  | some e => dfsPaths g maxPaths (g.nodes.length + 1) e [] [] []

/-! ## Dataflow analysis (`analysis/dataflow.py`) -/

/-- `StatementParser._extract_vars_from_expr`: identifier tokens minus the
keyword stopword set. -/
def extractVarsFromExpr (expr : String) : List String :=
  (identTokens expr.data).filter
    (fun m => m ∉ ["let", "mut", "if", "else", "match", "return", "true", "false", "self"])

/-- `StatementParser.extract_variables_used`. -/
def extractVariablesUsed : Stmt → List String
  | .assignment _ e _ _ _ => extractVarsFromExpr e
  | .letBinding _ e _ _ _ _ => extractVarsFromExpr e
  | .ifS c _ _ _ _ => extractVarsFromExpr c
  | .ret (some e) _ _ _ => extractVarsFromExpr e
  | .call _ args _ _ _ _ => args.foldr (fun a acc => extractVarsFromExpr a ++ acc) []
  | .storageWrite _ v _ _ _ => extractVarsFromExpr v
  | _ => []

/-- `StatementParser.extract_variables_defined`. -/
def extractVariablesDefined : Stmt → List String
  | .letBinding v _ _ _ _ _ => [v]
  | .assignment v _ _ _ _ => [v]
  | _ => []

/-- A reaching-definitions fact set: `(variable, defining node id)` pairs,
a Python `set` used up to membership. -/
abbrev RDSet := List (String × Nat)

/-- A Python dict from node id to a fact set. -/
abbrev RDMap := List (Nat × RDSet)

/-- `dict.get(k, set())`. -/
def lookupRD : RDMap → Nat → RDSet
  | [], _ => []
  | (k, v) :: t, i => if k = i then v else lookupRD t i

/-- `dict[k] = v` for a key that is present (the analysis only assigns to
keys created by its initialisation loop); a missing key is left alone. -/
def setRD : RDMap → Nat → RDSet → RDMap
  | [], _, _ => []
  | (k, v) :: t, i, w => if k = i then (k, w) :: t else (k, v) :: setRD t i w

/-- `set.union`. -/
def unionRD (a b : RDSet) : RDSet := a ++ b.filter (fun x => decide (x ∉ a))

/-- Set inclusion test on the list representation. -/
def subRD (a b : RDSet) : Bool := a.all (fun x => decide (x ∈ b))

/-- The `!=` comparison of two Python sets is set-inequality. -/
def seteqRD (a b : RDSet) : Bool := subRD a b && subRD b a

structure RDState where
  rin : RDMap
  rout : RDMap
deriving Repr, DecidableEq

/-- `extract_variables_defined` lifted to a node's optional statement. -/
def defsOfOpt : Option Stmt → List String
  | none => []
  | some st => extractVariablesDefined st

/-- One node of the iteration body of
`DataflowAnalyzer.compute_reaching_definitions`:
`in[n] = ⋃ out[p]`, `out[n] = gen[n] ∪ (in[n] − kill[n])`, with the
changed flag tracking whether either set changed as a set. -/
def rdStep (acc : Bool × RDState) (n : CFGNode) : Bool × RDState :=
  let changed := acc.1
  let s := acc.2
  let new_in := n.predecessors.foldl (fun a p => unionRD a (lookupRD s.rout p)) []
  let changed := changed || !(seteqRD new_in (lookupRD s.rin n.id))
  let rin' := setRD s.rin n.id new_in
  let ds := defsOfOpt n.statement
  let gen := ds.map (fun v => (v, n.id))
  let keep := new_in.filter (fun p => !(decide (p.1 ∈ ds) && decide (p.2 ≠ n.id)))
  let new_out := unionRD gen keep
  let changed := changed || !(seteqRD new_out (lookupRD s.rout n.id))
  let rout' := setRD s.rout n.id new_out
  (changed, ⟨rin', rout'⟩)

/-- One `while` iteration: the `for node in self.cfg.nodes` loop, updating
the two maps in place. -/
def rdPass (nodes : List CFGNode) (s : RDState) : Bool × RDState :=
  nodes.foldl rdStep (false, s)

/-- Both maps initialised to the empty set on every node id. -/
def initRD (nodes : List CFGNode) : RDState :=
  ⟨nodes.map (fun n => (n.id, [])), nodes.map (fun n => (n.id, []))⟩

/-- The `while changed and iterations < max_iterations` loop; the boolean
result is true when the loop stopped because a pass made no change, and
false when it exhausted the iteration budget. -/
def rdRun (nodes : List CFGNode) : Nat → RDState → RDState × Bool
  | 0, s => (s, false)
  | fuel + 1, s =>
    match rdPass nodes s with
    | (true, s') => rdRun nodes fuel s'
    | (false, s') => (s', true)

/-- `DataflowAnalyzer.compute_reaching_definitions` (cap 100), returning
the reaching-in map. -/
def computeReachingDefinitions (g : ControlFlowGraph) : RDMap :=
  (rdRun g.nodes 100 (initRD g.nodes)).1.rin

/-- One `{'variable': .., 'node_id': .., 'line': ..}` warning of
`find_uninitialized_variables` (the formatted message is a function of
the variable and is not modelled separately). -/
structure UninitWarning where
  var_name : String
  node_id : Nat
  line : Nat
deriving DecidableEq, Repr

/-- `DataflowAnalyzer.find_uninitialized_variables`. -/
def findUninitializedVariables (g : ControlFlowGraph) : List UninitWarning :=
  let rd := computeReachingDefinitions g
  g.nodes.foldr
    (fun n acc =>
      (match n.statement with
       | none => []
       | some st =>
         (extractVariablesUsed st).filterMap (fun v =>
           if (lookupRD rd n.id).any (fun p => decide (p.1 = v)) then none
           else some ⟨v, n.id, st.lineOf⟩)) ++ acc)
    []

/-- A `DefUseChain`. -/
structure DefUseChain where
  var_name : String
  definitions : List Nat
  uses : List Nat
deriving DecidableEq, Repr

/-- Append an occurrence to an insertion-ordered multimap, as the
defaultdict-style `var_defs.setdefault(var, []).append(node.id)` pattern
of the source does. -/
def addOcc (m : List (String × List Nat)) (v : String) (i : Nat) : List (String × List Nat) :=
  if m.any (fun p => decide (p.1 = v)) then
    m.map (fun p => if p.1 = v then (p.1, p.2 ++ [i]) else p)
  else m ++ [(v, [i])]

def lookupOcc : List (String × List Nat) → String → List Nat
  | [], _ => []
  | (k, v) :: t, s => if k = s then v else lookupOcc t s

/-- Insert into a sorted list of strings; `sorted` on a set of keys. -/
def insSorted (s : String) : List String → List String
  | [] => [s]
  | h :: t => if strLt s h then s :: h :: t else h :: insSorted s t

def sortStrings (l : List String) : List String := l.foldr insSorted []

/-- `DataflowAnalyzer.analyze_def_use_chains`: collect per-variable
definition and use node ids over all statement-bearing nodes, then one
chain per variable in sorted order. -/
def analyzeDefUseChains (g : ControlFlowGraph) : List DefUseChain :=
  let step := fun (acc : (List (String × List Nat)) × (List (String × List Nat))) (n : CFGNode) =>
    match n.statement with
    | none => acc
    | some st =>
      let defs := (extractVariablesDefined st).foldl (fun m v => addOcc m v n.id) acc.1
      let uses := (extractVariablesUsed st).foldl (fun m v => addOcc m v n.id) acc.2
      (defs, uses)
  let (varDefs, varUses) := g.nodes.foldl step ([], [])
  let allVars := sortStrings ((varDefs.map Prod.fst ++ varUses.map Prod.fst).dedup)
  allVars.map (fun v => ⟨v, lookupOcc varDefs v, lookupOcc varUses v⟩)

/-- A `StorageAccess` record. -/
structure StorageAccess where
  storage_var : String
  access_type : String
  node_id : Nat
  line : Nat
  value : Option String := none
deriving DecidableEq, Repr

/-- `DataflowAnalyzer.analyze_storage_access`. -/
def analyzeStorageAccess (g : ControlFlowGraph) : List StorageAccess :=
  g.nodes.foldr
    (fun n acc =>
      (match n.statement with
       | some (.storageRead sv ln _ _) => [⟨sv, "read", n.id, ln, none⟩]
       | some (.storageWrite sv v ln _ _) => [⟨sv, "write", n.id, ln, some v⟩]
       | _ => []) ++ acc)
    []

/-- An `ExternalCall` record. -/
structure ExternalCall where
  function_name : String
  arguments : List String
  node_id : Nat
  line : Nat
  is_external : Bool
deriving DecidableEq, Repr

/-- `DataflowAnalyzer.analyze_external_calls`: every call statement is
recorded, its `is_external` flag preserved. -/
def analyzeExternalCalls (g : ControlFlowGraph) : List ExternalCall :=
  g.nodes.foldr
    (fun n acc =>
      (match n.statement with
       | some (.call f args ext ln _ _) => [⟨f, args, n.id, ln, ext⟩]
       | _ => []) ++ acc)
    []

/-- An unused-definition warning. -/
structure UnusedDefWarning where
  var_name : String
  definition_nodes : List Nat
deriving DecidableEq, Repr

/-- `DataflowAnalyzer.find_unused_definitions`. -/
def findUnusedDefinitions (g : ControlFlowGraph) : List UnusedDefWarning :=
  (analyzeDefUseChains g).filterMap (fun ch =>
    if ch.definitions ≠ [] ∧ ch.uses = [] then some ⟨ch.var_name, ch.definitions⟩ else none)

/-! ## The contract IR and the linker (`parser.py`) -/

/-- `FunctionInfo`.  Parameters are (name, type) pairs; returns hold the
type strings of the `{'type': ...}` records. -/
structure FunctionInfo where
  name : String
  visibility : String
  parameters : List (String × String)
  returns : List String
  decorators : List String
  line : Nat
  is_stub : Bool := false
  body_start_line : Option Nat := none
  body_end_line : Option Nat := none
  body_text : Option String := none
deriving DecidableEq, Repr

/-- `ImportInfo`. -/
structure ImportInfo where
  module_path : String
  symbols : List String
  line : Nat
  resolved : Bool := false
  stub_created : Bool := false
deriving DecidableEq, Repr

/-- `ContractInfo`, restricted to the fields the linker claims touch
(storage variables, events and the stub-module map do not take part
in import resolution or stub synthesis). -/
structure ContractInfo where
  name : String
  file_path : String
  contract_type : String
  functions : List FunctionInfo := []
  imports : List ImportInfo := []
  parse_warnings : List String := []
  parse_errors : List String := []
deriving DecidableEq, Repr

/-- `CairoParser._create_stub_module`. -/
def createStubModule (imp : ImportInfo) : ContractInfo :=
  { name := ((strSplitOn imp.module_path "::").getLastD "")
    file_path := "<stub:" ++ imp.module_path ++ ">"
    contract_type := "stub"
    functions := imp.symbols.map (fun s =>
      { name := s
        visibility := "external"
        parameters := []
        returns := []
        decorators := ["stub"]
        line := 0
        is_stub := true })
    parse_warnings := ["Stub created for missing module: " ++ imp.module_path] }

/-- The body of the per-import loop of
`CairoParser._resolve_imports_from_symbol_table` (Pass 2); the registry is
the key set of the symbol table, which Pass 2 only reads. -/
def resolveImport (registry : List String) (imp : ImportInfo) : ImportInfo :=
  if imp.resolved then imp
  else if imp.module_path ∈ registry then
    { imp with resolved := true, stub_created := false }
  else if imp.symbols.any (fun s => decide (s ∈ registry)) then
    { imp with resolved := true, stub_created := false }
  else if strStartsWith imp.module_path "crate::" then
    let stripped := strReplace imp.module_path "crate::" ""
    if stripped ∈ registry then { imp with resolved := true, stub_created := false }
    else
      let parts := strSplitOn stripped "::"
      if (List.range parts.length).any
          (fun i => decide (String.intercalate "::" (parts.take (i + 1)) ∈ registry))
      then { imp with resolved := true, stub_created := false }
      else imp
  else imp

/-- Pass 2 over a list of imports: the registry is unchanged throughout,
so the loop is a map. -/
def resolveImportsFromSymbolTable (registry : List String) (imports : List ImportInfo) :
    List ImportInfo :=
  imports.map (resolveImport registry)

/-- `CairoParser._create_stubs_for_unresolved` (Pass 3) over the imports
in their traversal order, threading the stub registry: an
unresolved import whose module path has no stub yet gets a stub and the
`stub_created` mark; any other import is left untouched. -/
def createStubsForUnresolved (reg : List (String × ContractInfo)) :
    List ImportInfo → List (String × ContractInfo) × List ImportInfo
  | [] => (reg, [])
  | imp :: rest =>
    if !imp.resolved && !(reg.any (fun e => decide (e.1 = imp.module_path))) then
      let reg' := reg ++ [(imp.module_path, createStubModule imp)]
      ((createStubsForUnresolved reg' rest).1,
       { imp with stub_created := true } :: (createStubsForUnresolved reg' rest).2)
    else
      ((createStubsForUnresolved reg rest).1,
       imp :: (createStubsForUnresolved reg rest).2)

/-- Pass 2 followed by Pass 3, as `parse_directories` runs them on
the imports of the parsed files. -/
def linkImports (registry : List String) (reg : List (String × ContractInfo))
    (imports : List ImportInfo) : List (String × ContractInfo) × List ImportInfo :=
  createStubsForUnresolved reg (resolveImportsFromSymbolTable registry imports)

inductive AnalysisWarning where
  | noBody
  | noStatements
  | uninitialized (w : UninitWarning)
  | unusedDef (w : UnusedDefWarning)
deriving DecidableEq, Repr

structure DataflowResult where
  def_use_chains : List DefUseChain
  storage_accesses : List StorageAccess
  external_calls : List ExternalCall
deriving DecidableEq, Repr

/-- `DataflowAnalyzer.analyze_all`. -/
def analyzeAll (g : ControlFlowGraph) : DataflowResult :=
  ⟨analyzeDefUseChains g, analyzeStorageAccess g, analyzeExternalCalls g⟩

structure FunctionAnalysisResult where
  function_name : String
  has_body : Bool
  cfg : Option ControlFlowGraph := none
  dataflow : Option DataflowResult := none
  warnings : List AnalysisWarning := []
  errors : List String := []
deriving DecidableEq, Repr

/-- `CairoAnalyzer.analyze_function`: no body yields only a `no_body`
warning; an empty statement stream yields only a `no_statements` warning
and no CFG; otherwise the full C5→C6→C7 pipeline runs (the embedded
pipeline is total, so the `except` branch of the source is dead). -/
def analyzeFunction (f : FunctionInfo) : FunctionAnalysisResult :=
  match f.body_text with
  | none =>
    { function_name := f.name, has_body := false, warnings := [.noBody] }
  | some body =>
    let stmts := parse body (f.body_start_line.getD f.line)
    if stmts.isEmpty then
      { function_name := f.name, has_body := true, warnings := [.noStatements] }
    else
      let g := buildCFG f.name stmts
      { function_name := f.name
        has_body := true
        cfg := some g
        dataflow := some (analyzeAll g)
        warnings :=
          (findUninitializedVariables g).map .uninitialized
            ++ (findUnusedDefinitions g).map .unusedDef }

/-! ## Concrete inputs used by the claims -/

/-- The §8 scenario-3 body `if cond ... else ... return a;`, one
statement per line. -/
def ifElseBody : String :=
  "\x7b\nif cond \x7b\nlet a = 1;\n\x7d else \x7b\nlet a = 2;\n\x7d\nreturn a;\n\x7d"

/-- The §8 scenario-4 storage body. -/
def storageBody : String :=
  "\x7b\nlet v = self.counter.read();\nself.counter.write(v + 1);\n\x7d"

/-- A function whose body text is literally the empty braces. -/
def fnEmptyBody : FunctionInfo :=
  { name := "foo", visibility := "internal", parameters := [], returns := []
    decorators := [], line := 1, body_text := some "\x7b\x7d"
    body_start_line := some 1, body_end_line := some 1 }

/-- The C1 witness input: one fresh unresolved import. -/
def oneImport : List ImportInfo :=
  [{ module_path := "crate::b", symbols := ["Helper"], line := 1 }]

/-- Two distinct imports (as from two files) naming the same unresolved
module path. -/
def dupImports : List ImportInfo :=
  [{ module_path := "crate::missing", symbols := ["Helper"], line := 1 },
   { module_path := "crate::missing", symbols := ["Other"], line := 2 }]

/-- The state of the reaching-definitions loop after `k` full passes over
the node list. -/
def rdIter (nodes : List CFGNode) : Nat → RDState
  | 0 => initRD nodes
  | k + 1 => (rdPass nodes (rdIter nodes k)).2

/-- Pointwise inclusion of reaching-definitions states: every fact in an
in-set or out-set of the first state is in the corresponding set of the
second. -/
def rdLE (s t : RDState) : Prop :=
  (∀ (i : Nat) (x : String × Nat), x ∈ lookupRD s.rin i → x ∈ lookupRD t.rin i) ∧
  (∀ (i : Nat) (x : String × Nat), x ∈ lookupRD s.rout i → x ∈ lookupRD t.rout i)

/-- Two states with the same key sets on both maps. -/
def rdKeysEq (s t : RDState) : Prop :=
  s.rin.map Prod.fst = t.rin.map Prod.fst ∧ s.rout.map Prod.fst = t.rout.map Prod.fst

/-- The single definition sitting at the far end of the chain graph. -/
def chainStmt : Stmt := .letBinding "x" "1" false 0 "let x = 1;" 0

/-- Node `i` of the chain graph: its only predecessor is `i + 1`, against
the processing order, and only node 101 carries a statement. -/
def mkChainNode (i : Nat) : CFGNode :=
  { id := i
    node_type := .statement
    statement := if i = 101 then some chainStmt else none
    predecessors := if i < 101 then [i + 1] else [] }

/-- Chain nodes with ids `a, a+1, …, a+n-1`. -/
def chainSeg : Nat → Nat → List CFGNode
  | _, 0 => []
  | a, n + 1 => mkChainNode a :: chainSeg (a + 1) n

/-- A 102-node CFG on which the definition at node 101 needs one
iteration per node to reach node 0, exceeding the 100-iteration cap. -/
def chainCFG : ControlFlowGraph :=
  { function_name := "chain", nodes := chainSeg 0 102
    entry_node_id := some 101, exit_node_ids := [0] }

/-- The wavefront invariant of the reaching-definitions passes on the
chain graph: after enough passes the single definition `("x", 101)` has
propagated backwards-in-processing-order down to node `g`, and no
further. -/
def chainFront (g : Nat) (s : RDState) : Prop :=
  (∀ j, j < g → lookupRD s.rout j = []) ∧
  (∀ j, g ≤ j → j ≤ 101 → lookupRD s.rout j = [("x", 101)]) ∧
  (∀ j, j < g → lookupRD s.rin j = []) ∧
  (∀ j, g ≤ j → j ≤ 100 → lookupRD s.rin j = [("x", 101)]) ∧
  lookupRD s.rin 101 = []

/-- A linear body whose first statement reads the parameter `p`. -/
def linearParamBody : String := "\x7b\nlet y = p + 1;\nreturn y;\n\x7d"

/-- Its CFG: entry 0 → let-y 2 → return-y 3 → exit 1. -/
def wGraph : ControlFlowGraph := buildCFG "w" (parse linearParamBody 1)

/-! ## C2 -/

/-- C2: on the multi-line if/else body, `StatementParser.parse` records
the `\x7d else \x7b` line at depth 2 — the depth before the line's own
braces, i.e. the then-block depth — while its matching if sits at depth 1.
The control headers therefore do not all carry the outer depth the
specification prescribes, refuting the claim on this input. -/
theorem C2_code_divergence :
    parse ifElseBody 1 =
      [.ifS "cond" false 2 "if cond \x7b" 1,
       .letBinding "a" "1" false 3 "let a = 1;" 2,
       .elseS false none 4 "\x7d else \x7b" 2,
       .letBinding "a" "2" false 5 "let a = 2;" 2,
       .ret (some "a") 7 "return a;" 1] ∧
    ((parse ifElseBody 1).get? 0).map Stmt.depth = some 1 ∧
    ((parse ifElseBody 1).get? 2).map Stmt.depth = some 2 := by
  refine ⟨?_, ?_, ?_⟩ <;> decide

/-! ## C3 -/

/-- C3: on the §8 scenario-3 body the builder never recognises the else
(its depth 2 differs from the if's depth 1), so both `let a` statements
end up sequentially on the then-path `2→4→5→6` (node 5 being the else
line as a plain statement node), and the branch's second successor is the
merge node 3 directly.  Path enumeration still yields exactly two paths,
but the two `let a` nodes 4 and 6 lie on the same path, not on
alternative successor paths as claimed. -/
theorem C3_code_divergence :
    buildCFG "f" (parse ifElseBody 1) =
      { function_name := "f"
        nodes :=
          [{ id := 0, node_type := .entry, successors := [2] },
           { id := 1, node_type := .exit, predecessors := [7] },
           { id := 2, node_type := .branch,
             statement := some (.ifS "cond" false 2 "if cond \x7b" 1),
             successors := [4, 3], predecessors := [0] },
           { id := 3, node_type := .merge, successors := [7], predecessors := [6, 2] },
           { id := 4, node_type := .statement,
             statement := some (.letBinding "a" "1" false 3 "let a = 1;" 2),
             successors := [5], predecessors := [2] },
           { id := 5, node_type := .statement,
             statement := some (.elseS false none 4 "\x7d else \x7b" 2),
             successors := [6], predecessors := [4] },
           { id := 6, node_type := .statement,
             statement := some (.letBinding "a" "2" false 5 "let a = 2;" 2),
             successors := [3], predecessors := [5] },
           { id := 7, node_type := .statement,
             statement := some (.ret (some "a") 7 "return a;" 1),
             successors := [1], predecessors := [3] }]
        entry_node_id := some 0
        exit_node_ids := [1] } ∧
    findAllPaths (buildCFG "f" (parse ifElseBody 1)) =
      [[0, 2, 4, 5, 6, 3, 7, 1], [0, 2, 3, 7, 1]] := by
  constructor <;> decide

/-! ## C4 -/

/-- C4 counterexample: on the storage body the line
`let v = self.counter.read();` is classified as a `storage_read` (the
storage patterns win over the let-binding pattern), which defines no
variable.  The def-use chain of `v` therefore has an empty definition
list, and in particular the read node 2 is not among its definitions. -/
theorem C4_counterexample :
    analyzeDefUseChains (buildCFG "g" (parse storageBody 1)) =
      [{ var_name := "v", definitions := [], uses := [3] }] ∧
    ¬ ∃ ch ∈ analyzeDefUseChains (buildCFG "g" (parse storageBody 1)),
        ch.var_name = "v" ∧ 2 ∈ ch.definitions := by
  constructor <;> decide

/-- C4 amended: exactly one storage_read record (counter, node 2) and one
storage_write record (counter, node 3) are emitted, and the def-use chain
of `v` has the write node among its uses but no definitions, because the
read line is subsumed by the storage_read classification. -/
theorem C4_amended :
    analyzeStorageAccess (buildCFG "g" (parse storageBody 1)) =
      [{ storage_var := "counter", access_type := "read", node_id := 2, line := 2 },
       { storage_var := "counter", access_type := "write", node_id := 3, line := 3,
         value := some "v + 1" }] ∧
    analyzeDefUseChains (buildCFG "g" (parse storageBody 1)) =
      [{ var_name := "v", definitions := [], uses := [3] }] := by
  constructor <;> decide

/-! ## C1 -/

/-- The stub registry only grows across Pass 3. -/
theorem stubsReg_mono (p : String × ContractInfo → Bool) :
    ∀ (imps : List ImportInfo) (reg : List (String × ContractInfo)),
      reg.any p = true → (createStubsForUnresolved reg imps).1.any p = true
  | [], _, h => h
  | imp :: rest, reg, h => by
    unfold createStubsForUnresolved
    split
    · exact stubsReg_mono p rest _ (by simp [List.any_append, h])
    · exact stubsReg_mono p rest reg h

/-- Pass 3 preserves flag exclusivity and leaves every unresolved import
either stub-marked or with its path already stubbed in the registry. -/
theorem linkStubsSound :
    ∀ (reg : List (String × ContractInfo)) (imps : List ImportInfo),
      (∀ i ∈ imps, ¬ (i.resolved = true ∧ i.stub_created = true)) →
      (∀ i ∈ (createStubsForUnresolved reg imps).2,
          ¬ (i.resolved = true ∧ i.stub_created = true)) ∧
      (∀ i ∈ (createStubsForUnresolved reg imps).2,
          i.resolved = false →
            i.stub_created = true ∨
              (createStubsForUnresolved reg imps).1.any
                (fun e => decide (e.1 = i.module_path)) = true)
  | reg, [], _ => by simp [createStubsForUnresolved]
  | reg, imp :: rest, hx => by
    have hxr : ∀ i ∈ rest, ¬ (i.resolved = true ∧ i.stub_created = true) :=
      fun i hi => hx i (List.mem_cons_of_mem _ hi)
    unfold createStubsForUnresolved
    split
    · rename_i hcond
      have hnr : imp.resolved = false := by
        rcases Bool.and_eq_true .. |>.mp hcond with ⟨h1, _⟩
        simpa using h1
      have ih := linkStubsSound (reg ++ [(imp.module_path, createStubModule imp)]) rest hxr
      refine ⟨?_, ?_⟩
      · intro i hi
        rcases List.mem_cons.mp hi with h | h
        · subst h; simp [hnr]
        · exact ih.1 i h
      · intro i hi hres
        rcases List.mem_cons.mp hi with h | h
        · subst h; left; rfl
        · exact ih.2 i h hres
    · rename_i hcond
      have ih := linkStubsSound reg rest hxr
      refine ⟨?_, ?_⟩
      · intro i hi
        rcases List.mem_cons.mp hi with h | h
        · subst h; exact hx _ (List.mem_cons_self _ _)
        · exact ih.1 i h
      · intro i hi hres
        rcases List.mem_cons.mp hi with h | h
        · subst h
          right
          have hany : reg.any (fun e => decide (e.1 = i.module_path)) = true := by
            cases hA : reg.any (fun e => decide (e.1 = i.module_path)) with
            | true => rfl
            | false => exact absurd (by simp [hres, hA]) hcond
          exact stubsReg_mono _ rest reg hany
        · exact ih.2 i h hres

/-- C1 counterexample: two distinct imports of the same unresolved module
path, linked with an empty symbol table and an empty stub registry.  The
first import receives the stub and the mark; the second is skipped by
Pass 3 because the path is already in the registry, and ends with
`resolved = false` and `stub_created = false`, refuting
"after Pass 3 every Import satisfies resolved ∨ stub_created". -/
theorem C1_counterexample :
    ¬ ∀ imp ∈ (linkImports [] [] dupImports).2,
        imp.resolved = true ∨ imp.stub_created = true := by
  decide

/-- Pass 2 preserves flag exclusivity: each resolution branch writes the
pair `(resolved, stub_created) = (true, false)` or leaves the import
unchanged. -/
theorem resolveImport_excl (registry : List String) (i : ImportInfo)
    (h : ¬ (i.resolved = true ∧ i.stub_created = true)) :
    ¬ ((resolveImport registry i).resolved = true ∧
        (resolveImport registry i).stub_created = true) := by
  unfold resolveImport
  split
  · exact h
  split
  · simp
  split
  · simp
  split
  · dsimp only
    split
    · simp
    · split
      · simp
      · exact h
  · exact h

/-- C1 amended: the exclusivity `¬(resolved ∧ stub_created)` is preserved
by Pass 2 and Pass 3 from any state satisfying it, and after Pass 3
every import is resolved, or stub-marked, or its module path already has a stub
in the final registry (the case of a duplicate unresolved path, where
only the first-processed import receives `stub_created = true`). -/
theorem C1_amended (registry : List String) (streg : List (String × ContractInfo))
    (imports : List ImportInfo)
    (hx : ∀ i ∈ imports, ¬ (i.resolved = true ∧ i.stub_created = true)) :
    (∀ i ∈ (linkImports registry streg imports).2,
        ¬ (i.resolved = true ∧ i.stub_created = true)) ∧
    (∀ i ∈ (linkImports registry streg imports).2,
        i.resolved = false →
          i.stub_created = true ∨
            (linkImports registry streg imports).1.any
              (fun e => decide (e.1 = i.module_path)) = true) := by
  have hres : ∀ i ∈ resolveImportsFromSymbolTable registry imports,
      ¬ (i.resolved = true ∧ i.stub_created = true) :=
    fun i hi => by
      rcases List.mem_map.mp hi with ⟨j, hj, rfl⟩
      exact resolveImport_excl registry j (hx j hj)
  exact linkStubsSound streg (resolveImportsFromSymbolTable registry imports) hres

/-- C1 witness: the amended claim applied to a concrete import list. -/
theorem C1_witness :
    (∀ i ∈ (linkImports [] [] oneImport).2,
        ¬ (i.resolved = true ∧ i.stub_created = true)) ∧
    (∀ i ∈ (linkImports [] [] oneImport).2,
        i.resolved = false →
          i.stub_created = true ∨
            (linkImports [] [] oneImport).1.any
              (fun e => decide (e.1 = i.module_path)) = true) :=
  C1_amended [] [] oneImport (by decide)

/-! ## C5 -/

/-- C5: every stub synthesized by `_create_stub_module` has kind `stub`,
is named after the last `::`-segment of the module path, carries one stub
function per imported symbol — in order, named after the symbols — each
with visibility `external`, empty parameter and return lists, decorator
list `["stub"]` and `is_stub = true`, and exactly one parse warning that
names the missing module path. -/
theorem C5_stub_shape (imp : ImportInfo) :
    (createStubModule imp).contract_type = "stub" ∧
    (createStubModule imp).name = (strSplitOn imp.module_path "::").getLastD "" ∧
    (createStubModule imp).functions.map FunctionInfo.name = imp.symbols ∧
    (∀ f ∈ (createStubModule imp).functions,
        f.visibility = "external" ∧ f.parameters = [] ∧ f.returns = [] ∧
        f.decorators = ["stub"] ∧ f.is_stub = true) ∧
    (createStubModule imp).parse_warnings =
      ["Stub created for missing module: " ++ imp.module_path] := by
  refine ⟨rfl, rfl, ?_, ?_, rfl⟩
  · show List.map FunctionInfo.name (imp.symbols.map _) = imp.symbols
    rw [List.map_map]
    exact List.map_id'' (fun _ => rfl) imp.symbols
  · intro f hf
    rcases List.mem_map.mp hf with ⟨s, _, rfl⟩
    exact ⟨rfl, rfl, rfl, rfl, rfl⟩

/-- C5 witness: the stub shape at a concrete import. -/
theorem C5_witness :
    (createStubModule { module_path := "crate::b", symbols := ["Helper"], line := 3 }).contract_type
        = "stub" ∧
    (∀ f ∈ (createStubModule
        { module_path := "crate::b", symbols := ["Helper"], line := 3 }).functions,
        f.visibility = "external" ∧ f.parameters = [] ∧ f.returns = [] ∧
        f.decorators = ["stub"] ∧ f.is_stub = true) :=
  ⟨(C5_stub_shape { module_path := "crate::b", symbols := ["Helper"], line := 3 }).1,
   (C5_stub_shape { module_path := "crate::b", symbols := ["Helper"], line := 3 }).2.2.2.1⟩

/-! ## C9 -/

/-- C9 counterexample: analyzing a function whose body text is the empty
braces produces no CFG at all — the statement stream is empty, so
`analyze_function` returns early with a `no_statements` warning — whereas
the claim promises a two-node entry→exit CFG. -/
theorem C9_counterexample : (analyzeFunction fnEmptyBody).cfg = none := by decide

/-- C9 amended: analyzing the `\x7b\x7d` body yields no CFG and exactly
the `no_statements` warning; `CFGBuilder.build` on an empty statement
vector (for any function name) yields exactly entry (id 0) → exit (id 1)
with the single edge between them. -/
theorem C9_amended :
    analyzeFunction fnEmptyBody =
      { function_name := "foo", has_body := true, cfg := none, dataflow := none,
        warnings := [.noStatements], errors := [] } ∧
    (∀ fname : String, buildCFG fname [] =
      { function_name := fname
        nodes := [{ id := 0, node_type := .entry, successors := [1] },
                  { id := 1, node_type := .exit, predecessors := [0] }]
        entry_node_id := some 0
        exit_node_ids := [1] }) :=
  ⟨by decide, fun _ => rfl⟩

/-! ## C10 -/

theorem lookupRD_setRD_ne (m : RDMap) (i j : Nat) (w : RDSet) (h : j ≠ i) :
    lookupRD (setRD m i w) j = lookupRD m j := by
  induction m with
  | nil => rfl
  | cons e t ih =>
    obtain ⟨k, v⟩ := e
    by_cases hk : k = i
    · subst hk
      simp only [setRD, if_pos rfl, lookupRD]
      rw [if_neg (fun he => h he.symm), if_neg (fun he => h he.symm)]
    · simp only [setRD, if_neg hk, lookupRD]
      by_cases hj : k = j
      · simp [hj]
      · simp [hj, ih]

theorem lookupRD_setRD_self (m : RDMap) (i : Nat) (w : RDSet)
    (h : i ∈ m.map Prod.fst) : lookupRD (setRD m i w) i = w := by
  induction m with
  | nil => simp at h
  | cons e t ih =>
    obtain ⟨k, v⟩ := e
    by_cases hk : k = i
    · subst hk
      simp [setRD, lookupRD]
    · simp only [setRD, if_neg hk, lookupRD, if_neg hk]
      apply ih
      have : ¬ i = k := fun he => hk he.symm
      simpa [this] using h

theorem lookupRD_setRD_nil (m : RDMap) (i : Nat) :
    lookupRD (setRD m i []) i = [] := by
  induction m with
  | nil => rfl
  | cons e t ih =>
    obtain ⟨k, v⟩ := e
    by_cases hk : k = i
    · subst hk; simp [setRD, lookupRD]
    · simp only [setRD, if_neg hk, lookupRD, if_neg hk]
      exact ih

theorem setRD_map_fst (m : RDMap) (i : Nat) (w : RDSet) :
    (setRD m i w).map Prod.fst = m.map Prod.fst := by
  induction m with
  | nil => rfl
  | cons e t ih =>
    obtain ⟨k, v⟩ := e
    by_cases hk : k = i <;> simp [setRD, hk, ih]

theorem lookupRD_init (nodes : List CFGNode) (j : Nat) :
    lookupRD (nodes.map (fun n => (n.id, ([] : RDSet)))) j = [] := by
  induction nodes with
  | nil => rfl
  | cons n t ih =>
    simp only [List.map_cons, lookupRD]
    by_cases h : n.id = j <;> simp [h, ih]

theorem mem_unionRD (x : String × Nat) (a b : RDSet) :
    x ∈ unionRD a b ↔ x ∈ a ∨ x ∈ b := by
  simp only [unionRD, List.mem_append, List.mem_filter, decide_eq_true_eq]
  by_cases h : x ∈ a <;> simp [h]

theorem subRD_nil_of_mem {x : String × Nat} {a : RDSet} (hx : x ∈ a) :
    subRD a [] = false := by
  cases h : subRD a [] with
  | false => rfl
  | true =>
    have := List.all_eq_true.mp h x hx
    simp at this

theorem seteqRD_nil_of_mem {x : String × Nat} {a : RDSet} (hx : x ∈ a) :
    seteqRD a [] = false := by
  simp [seteqRD, subRD_nil_of_mem hx]

/-- The state produced by `rdStep` does not depend on the incoming flag,
and its two maps are single-key updates. -/
theorem rdStep_rin_eq (acc : Bool × RDState) (m : CFGNode) :
    (rdStep acc m).2.rin =
      setRD acc.2.rin m.id
        (m.predecessors.foldl (fun a p => unionRD a (lookupRD acc.2.rout p)) []) := rfl

theorem rdStep_rout_eq (acc : Bool × RDState) (m : CFGNode) :
    (rdStep acc m).2.rout =
      setRD acc.2.rout m.id
        (unionRD ((defsOfOpt m.statement).map (fun v => (v, m.id)))
          ((m.predecessors.foldl (fun a p => unionRD a (lookupRD acc.2.rout p)) []).filter
            (fun p => !(decide (p.1 ∈ defsOfOpt m.statement) && decide (p.2 ≠ m.id))))) := rfl

theorem rdStep_lookup_rin_ne (acc : Bool × RDState) (m : CFGNode) (j : Nat)
    (h : j ≠ m.id) :
    lookupRD (rdStep acc m).2.rin j = lookupRD acc.2.rin j := by
  rw [rdStep_rin_eq, lookupRD_setRD_ne _ _ _ _ h]

theorem rdStep_lookup_rout_ne (acc : Bool × RDState) (m : CFGNode) (j : Nat)
    (h : j ≠ m.id) :
    lookupRD (rdStep acc m).2.rout j = lookupRD acc.2.rout j := by
  rw [rdStep_rout_eq, lookupRD_setRD_ne _ _ _ _ h]

theorem rdStep_fst_mono (acc : Bool × RDState) (m : CFGNode) (h : acc.1 = true) :
    (rdStep acc m).1 = true := by
  obtain ⟨c, s⟩ := acc
  simp only at h
  subst h
  simp [rdStep]

theorem rdStep_map_fst (acc : Bool × RDState) (m : CFGNode) :
    (rdStep acc m).2.rin.map Prod.fst = acc.2.rin.map Prod.fst ∧
    (rdStep acc m).2.rout.map Prod.fst = acc.2.rout.map Prod.fst := by
  rw [rdStep_rin_eq, rdStep_rout_eq]
  exact ⟨setRD_map_fst _ _ _, setRD_map_fst _ _ _⟩

theorem foldl_rdStep_fst_mono :
    ∀ (l : List CFGNode) (acc : Bool × RDState), acc.1 = true →
      (l.foldl rdStep acc).1 = true
  | [], _, h => h
  | m :: rest, acc, h =>
    foldl_rdStep_fst_mono rest (rdStep acc m) (rdStep_fst_mono acc m h)

theorem foldl_rdStep_map_fst :
    ∀ (l : List CFGNode) (acc : Bool × RDState),
      (l.foldl rdStep acc).2.rin.map Prod.fst = acc.2.rin.map Prod.fst ∧
      (l.foldl rdStep acc).2.rout.map Prod.fst = acc.2.rout.map Prod.fst
  | [], _ => ⟨rfl, rfl⟩
  | m :: rest, acc => by
    have h1 := rdStep_map_fst acc m
    have h2 := foldl_rdStep_map_fst rest (rdStep acc m)
    exact ⟨h2.1.trans h1.1, h2.2.trans h1.2⟩

theorem setRD_eq_of_not_mem (m : RDMap) (i : Nat) (w : RDSet)
    (h : i ∉ m.map Prod.fst) : setRD m i w = m := by
  induction m with
  | nil => rfl
  | cons e t ih =>
    obtain ⟨k, v⟩ := e
    simp only [List.map_cons, List.mem_cons] at h
    push_neg at h
    have hk : ¬ k = i := fun he => h.1 he.symm
    simp only [setRD, if_neg hk]
    rw [ih h.2]

theorem foldl_union_sub (sr tr : RDMap)
    (hst : ∀ (i : Nat) (x : String × Nat), x ∈ lookupRD sr i → x ∈ lookupRD tr i) :
    ∀ (preds : List Nat) (a b : RDSet), (∀ x ∈ a, x ∈ b) →
      ∀ x ∈ preds.foldl (fun acc p => unionRD acc (lookupRD sr p)) a,
        x ∈ preds.foldl (fun acc p => unionRD acc (lookupRD tr p)) b
  | [], a, b, hab, x, hx => hab x hx
  | p :: rest, a, b, hab, x, hx => by
    refine foldl_union_sub sr tr hst rest _ _ ?_ x hx
    intro y hy
    rcases (mem_unionRD y a (lookupRD sr p)).mp hy with h | h
    · exact (mem_unionRD y b (lookupRD tr p)).mpr (Or.inl (hab y h))
    · exact (mem_unionRD y b (lookupRD tr p)).mpr (Or.inr (hst p y h))

/-- One `rdStep` is monotone in the state (the flag plays no part in the
state it produces). -/
theorem rdStep_mono (m : CFGNode) (c c' : Bool) (s t : RDState)
    (hkeys : rdKeysEq s t) (h : rdLE s t) :
    rdLE (rdStep (c, s) m).2 (rdStep (c', t) m).2 := by
  have hni : ∀ x ∈ m.predecessors.foldl (fun a p => unionRD a (lookupRD s.rout p)) [],
      x ∈ m.predecessors.foldl (fun a p => unionRD a (lookupRD t.rout p)) [] :=
    foldl_union_sub s.rout t.rout h.2 m.predecessors [] [] (by intro y hy; simp at hy)
  constructor
  · intro j x hx
    by_cases hj : j = m.id
    · subst hj
      rw [rdStep_rin_eq] at hx ⊢
      by_cases hmem : m.id ∈ s.rin.map Prod.fst
      · rw [lookupRD_setRD_self _ _ _ hmem] at hx
        rw [lookupRD_setRD_self _ _ _ (hkeys.1 ▸ hmem)]
        exact hni x hx
      · rw [setRD_eq_of_not_mem _ _ _ hmem] at hx
        rw [setRD_eq_of_not_mem _ _ _ (hkeys.1 ▸ hmem)]
        exact h.1 m.id x hx
    · rw [rdStep_lookup_rin_ne _ _ _ hj] at hx
      rw [rdStep_lookup_rin_ne _ _ _ hj]
      exact h.1 j x hx
  · intro j x hx
    by_cases hj : j = m.id
    · subst hj
      rw [rdStep_rout_eq] at hx ⊢
      by_cases hmem : m.id ∈ s.rout.map Prod.fst
      · rw [lookupRD_setRD_self _ _ _ hmem] at hx
        rw [lookupRD_setRD_self _ _ _ (hkeys.2 ▸ hmem)]
        rcases (mem_unionRD x _ _).mp hx with hg | hk
        · exact (mem_unionRD x _ _).mpr (Or.inl hg)
        · rw [List.mem_filter] at hk
          exact (mem_unionRD x _ _).mpr
            (Or.inr (List.mem_filter.mpr ⟨hni x hk.1, hk.2⟩))
      · rw [setRD_eq_of_not_mem _ _ _ hmem] at hx
        rw [setRD_eq_of_not_mem _ _ _ (hkeys.2 ▸ hmem)]
        exact h.2 m.id x hx
    · rw [rdStep_lookup_rout_ne _ _ _ hj] at hx
      rw [rdStep_lookup_rout_ne _ _ _ hj]
      exact h.2 j x hx

theorem rdStep_keysEq (m : CFGNode) (c c' : Bool) (s t : RDState)
    (hkeys : rdKeysEq s t) :
    rdKeysEq (rdStep (c, s) m).2 (rdStep (c', t) m).2 := by
  have h1 := rdStep_map_fst (c, s) m
  have h2 := rdStep_map_fst (c', t) m
  exact ⟨h1.1.trans (hkeys.1.trans h2.1.symm), h1.2.trans (hkeys.2.trans h2.2.symm)⟩

theorem rdPass_fold_mono :
    ∀ (l : List CFGNode) (c c' : Bool) (s t : RDState),
      rdKeysEq s t → rdLE s t →
      rdLE (l.foldl rdStep (c, s)).2 (l.foldl rdStep (c', t)).2
  | [], _, _, _, _, _, h => h
  | m :: rest, c, c', s, t, hkeys, h => by
    have hstep := rdStep_mono m c c' s t hkeys h
    have hks := rdStep_keysEq m c c' s t hkeys
    rcases hs : rdStep (c, s) m with ⟨c₂, s₂⟩
    rcases ht : rdStep (c', t) m with ⟨c₂', t₂⟩
    have hstep' : rdLE s₂ t₂ := by rw [hs, ht] at hstep; exact hstep
    have hks' : rdKeysEq s₂ t₂ := by rw [hs, ht] at hks; exact hks
    simpa [List.foldl, hs, ht] using rdPass_fold_mono rest c₂ c₂' s₂ t₂ hks' hstep'

theorem rdIter_map_fst (nodes : List CFGNode) :
    ∀ k : Nat, (rdIter nodes k).rin.map Prod.fst = (initRD nodes).rin.map Prod.fst ∧
      (rdIter nodes k).rout.map Prod.fst = (initRD nodes).rout.map Prod.fst
  | 0 => ⟨rfl, rfl⟩
  | k + 1 => by
    have h1 := foldl_rdStep_map_fst nodes (false, rdIter nodes k)
    have h2 := rdIter_map_fst nodes k
    exact ⟨h1.1.trans h2.1, h1.2.trans h2.2⟩

theorem rdIter_mono (nodes : List CFGNode) :
    ∀ k : Nat, rdLE (rdIter nodes k) (rdIter nodes (k + 1))
  | 0 => by
    constructor <;> intro i x hx <;>
      · have : lookupRD (initRD nodes).rin i = [] := lookupRD_init nodes i
        have h2 : lookupRD (initRD nodes).rout i = [] := lookupRD_init nodes i
        simp only [rdIter] at hx
        first
          | (rw [this] at hx; exact absurd hx (List.not_mem_nil x))
          | (rw [h2] at hx; exact absurd hx (List.not_mem_nil x))
  | k + 1 => by
    have hkeys : rdKeysEq (rdIter nodes k) (rdIter nodes (k + 1)) := by
      have a := rdIter_map_fst nodes k
      have b := rdIter_map_fst nodes (k + 1)
      exact ⟨a.1.trans b.1.symm, a.2.trans b.2.symm⟩
    exact rdPass_fold_mono nodes false false _ _ hkeys (rdIter_mono nodes k)

/-- The state the capped loop returns is always one of the pass iterates. -/
theorem rdRun_is_iter (nodes : List CFGNode) :
    ∀ (fuel k : Nat), ∃ j ≤ fuel,
      (rdRun nodes fuel (rdIter nodes k)).1 = rdIter nodes (k + j)
  | 0, _ => ⟨0, Nat.le_refl 0, rfl⟩
  | fuel + 1, k => by
    show ∃ j ≤ fuel + 1,
      (match rdPass nodes (rdIter nodes k) with
        | (true, s') => rdRun nodes fuel s'
        | (false, s') => (s', true)).1 = rdIter nodes (k + j)
    have hsnd : (rdPass nodes (rdIter nodes k)).2 = rdIter nodes (k + 1) := rfl
    rcases hp : rdPass nodes (rdIter nodes k) with ⟨flag, s'⟩
    have hs' : s' = rdIter nodes (k + 1) := by rw [hp] at hsnd; exact hsnd
    cases flag
    · exact ⟨1, by omega, by simpa using hs'⟩
    · obtain ⟨j, hj, hrun⟩ := rdRun_is_iter nodes fuel (k + 1)
      refine ⟨j + 1, by omega, ?_⟩
      simpa [hs', Nat.add_assoc, Nat.add_comm 1 j] using hrun

/-! ## C6 -/

theorem mem_foldr_append {α β : Type} (f : α → List β) :
    ∀ (l : List α) (w : β),
      (w ∈ l.foldr (fun n acc => f n ++ acc) []) ↔ ∃ n ∈ l, w ∈ f n
  | [], w => by simp
  | m :: rest, w => by
    simp only [List.foldr_cons, List.mem_append, mem_foldr_append f rest w,
      List.mem_cons]
    constructor
    · rintro (h | ⟨n, hn, hw⟩)
      · exact ⟨m, Or.inl rfl, h⟩
      · exact ⟨n, Or.inr hn, hw⟩
    · rintro ⟨n, hn | hn, hw⟩
      · exact Or.inl (hn ▸ hw)
      · exact Or.inr ⟨n, hn, hw⟩

/-- Every uninitialized-use warning traces to a node, a used variable and
a failing reaching-definition test, and conversely. -/
theorem mem_findUninit (g : ControlFlowGraph) (w : UninitWarning) :
    w ∈ findUninitializedVariables g ↔
      ∃ m ∈ g.nodes, ∃ st, m.statement = some st ∧
        ∃ v ∈ extractVariablesUsed st,
          (lookupRD (computeReachingDefinitions g) m.id).any
              (fun p => decide (p.1 = v)) = false ∧
          w = ⟨v, m.id, st.lineOf⟩ := by
  unfold findUninitializedVariables
  rw [mem_foldr_append]
  constructor
  · rintro ⟨m, hm, hw⟩
    cases hst : m.statement with
    | none => rw [hst] at hw; simp at hw
    | some st =>
      rw [hst] at hw
      rcases List.mem_filterMap.mp hw with ⟨v, hv, hsome⟩
      by_cases hc : (lookupRD (computeReachingDefinitions g) m.id).any
          (fun p => decide (p.1 = v)) = true
      · rw [if_pos hc] at hsome; exact absurd hsome (by simp)
      · rw [if_neg hc] at hsome
        exact ⟨m, hm, st, hst, v, hv,
          Bool.not_eq_true _ ▸ (by simpa using hc), (Option.some_inj.mp hsome).symm⟩
  · rintro ⟨m, hm, st, hst, v, hv, hany, rfl⟩
    refine ⟨m, hm, ?_⟩
    rw [hst]
    exact List.mem_filterMap.mpr ⟨v, hv, by rw [if_neg (by simp [hany])]⟩

theorem anyFst_false_iff (l : RDSet) (v : String) :
    (l.any (fun p => decide (p.1 = v)) = false) ↔ ¬ ∃ d, (v, d) ∈ l := by
  constructor
  · intro h ⟨d, hd⟩
    have hd2 : decide (((v, d) : String × Nat).1 = v) = true := decide_eq_true rfl
    have hT : l.any (fun p => decide (p.1 = v)) = true :=
      List.any_eq_true.mpr ⟨(v, d), hd, hd2⟩
    rw [h] at hT
    exact Bool.false_ne_true hT
  · intro h
    cases hA : l.any (fun p => decide (p.1 = v)) with
    | false => rfl
    | true =>
      rcases List.any_eq_true.mp hA with ⟨p, hp, hpv⟩
      have hv : p.1 = v := by simpa using hpv
      exact absurd ⟨p.2, by rw [← hv]; exact hp⟩ h

/-- Nodes with equal ids are equal when the id list has no duplicates. -/
theorem node_eq_of_id_eq {g : ControlFlowGraph}
    (hN : (g.nodes.map CFGNode.id).Nodup) {m n : CFGNode}
    (hm : m ∈ g.nodes) (hn : n ∈ g.nodes) (h : m.id = n.id) : m = n :=
  List.inj_on_of_nodup_map hN hm hn h

/-- The out-set an entry-shaped node (no statement, no predecessors)
writes is empty. -/
theorem rdStep_entry_rout (acc : Bool × RDState) (m : CFGNode)
    (hst : m.statement = none) (hp : m.predecessors = []) :
    lookupRD (rdStep acc m).2.rout m.id = [] := by
  rw [rdStep_rout_eq, hst, hp]
  exact lookupRD_setRD_nil _ _

/-- The in-set written at a node whose single predecessor has an empty
out-set is empty. -/
theorem rdStep_single_pred_rin (acc : Bool × RDState) (m : CFGNode) (p : Nat)
    (hp : m.predecessors = [p]) (hout : lookupRD acc.2.rout p = []) :
    lookupRD (rdStep acc m).2.rin m.id = [] := by
  rw [rdStep_rin_eq, hp]
  simp only [List.foldl_cons, List.foldl_nil, hout]
  exact lookupRD_setRD_nil _ _

/-- Through one pass, an entry-shaped node keeps an empty out-set and a
node whose only predecessor is that entry keeps an empty in-set. -/
theorem foldl_rdStep_entry {g : ControlFlowGraph} {e n : CFGNode}
    (hN : (g.nodes.map CFGNode.id).Nodup)
    (he : e ∈ g.nodes) (hn : n ∈ g.nodes)
    (hest : e.statement = none) (hep : e.predecessors = [])
    (hnp : n.predecessors = [e.id]) :
    ∀ (l : List CFGNode), (∀ m ∈ l, m ∈ g.nodes) → ∀ (acc : Bool × RDState),
      lookupRD acc.2.rout e.id = [] → lookupRD acc.2.rin n.id = [] →
      lookupRD (l.foldl rdStep acc).2.rout e.id = [] ∧
      lookupRD (l.foldl rdStep acc).2.rin n.id = []
  | [], _, acc, h1, h2 => ⟨h1, h2⟩
  | m :: rest, hsub, acc, h1, h2 => by
    have hmg := hsub m (List.mem_cons_self _ _)
    have hrest : ∀ x ∈ rest, x ∈ g.nodes := fun x hx => hsub x (List.mem_cons_of_mem _ hx)
    refine foldl_rdStep_entry hN he hn hest hep hnp rest hrest (rdStep acc m) ?_ ?_
    · by_cases hid : e.id = m.id
      · have hme : m = e := node_eq_of_id_eq hN hmg he hid.symm
        rw [hid]
        exact rdStep_entry_rout acc m (by rw [hme]; exact hest) (by rw [hme]; exact hep)
      · rw [rdStep_lookup_rout_ne _ _ _ hid]
        exact h1
    · by_cases hid : n.id = m.id
      · have hmn : m = n := node_eq_of_id_eq hN hmg hn hid.symm
        rw [hid]
        exact rdStep_single_pred_rin acc m e.id (by rw [hmn]; exact hnp) h1
      · rw [rdStep_lookup_rin_ne _ _ _ hid]
        exact h2

/-- The same invariant through the capped loop. -/
theorem rdRun_entry {g : ControlFlowGraph} {e n : CFGNode}
    (hN : (g.nodes.map CFGNode.id).Nodup)
    (he : e ∈ g.nodes) (hn : n ∈ g.nodes)
    (hest : e.statement = none) (hep : e.predecessors = [])
    (hnp : n.predecessors = [e.id]) :
    ∀ (fuel : Nat) (s : RDState),
      lookupRD s.rout e.id = [] → lookupRD s.rin n.id = [] →
      lookupRD (rdRun g.nodes fuel s).1.rout e.id = [] ∧
      lookupRD (rdRun g.nodes fuel s).1.rin n.id = []
  | 0, s, h1, h2 => ⟨h1, h2⟩
  | fuel + 1, s, h1, h2 => by
    have hpres := foldl_rdStep_entry hN he hn hest hep hnp g.nodes
      (fun x hx => hx) (false, s) h1 h2
    show lookupRD (match rdPass g.nodes s with
        | (true, s') => rdRun g.nodes fuel s'
        | (false, s') => (s', true)).1.rout e.id = [] ∧
      lookupRD (match rdPass g.nodes s with
        | (true, s') => rdRun g.nodes fuel s'
        | (false, s') => (s', true)).1.rin n.id = []
    have hsnd : (rdPass g.nodes s).2 = (g.nodes.foldl rdStep (false, s)).2 := rfl
    rcases hp : rdPass g.nodes s with ⟨flag, s'⟩
    have hs' : lookupRD s'.rout e.id = [] ∧ lookupRD s'.rin n.id = [] := by
      have : s' = (g.nodes.foldl rdStep (false, s)).2 := by rw [hp] at hsnd; exact hsnd
      rw [this]
      exact hpres
    cases flag
    · exact hs'
    · exact rdRun_entry hN he hn hest hep hnp fuel s' hs'.1 hs'.2

/-- C6: for every control-flow graph, node and variable used at that node,
`find_uninitialized_variables` emits a warning naming the variable and the
node id exactly when no pair `(v, d)` appears in the reaching-in set the
analysis computed for that node id; and since function parameters are never
seeded into the entry in-set, a statement node whose only predecessor is
the entry node always receives such a warning for every variable it uses —
in particular a first statement that reads only a parameter. -/
theorem C6_uninitialized_iff :
    (∀ (g : ControlFlowGraph), ∀ n ∈ g.nodes, ∀ st : Stmt, n.statement = some st →
      ∀ v ∈ extractVariablesUsed st,
        ((∃ w ∈ findUninitializedVariables g, w.var_name = v ∧ w.node_id = n.id) ↔
          ¬ ∃ d, (v, d) ∈ lookupRD (computeReachingDefinitions g) n.id)) ∧
    (∀ (g : ControlFlowGraph) (e n : CFGNode),
      (g.nodes.map CFGNode.id).Nodup → e ∈ g.nodes → n ∈ g.nodes →
      e.statement = none → e.predecessors = [] → n.predecessors = [e.id] →
      ∀ st : Stmt, n.statement = some st → ∀ v ∈ extractVariablesUsed st,
        ∃ w ∈ findUninitializedVariables g, w.var_name = v ∧ w.node_id = n.id) := by
  constructor
  · intro g n hn st hst v hv
    constructor
    · rintro ⟨w, hw, hwv, hwn⟩
      rcases (mem_findUninit g w).mp hw with ⟨m, _, st', _, v', _, hany, rfl⟩
      have hv2 : v' = v := hwv
      have hid : m.id = n.id := hwn
      rw [hv2, hid] at hany
      exact (anyFst_false_iff _ v).mp hany
    · intro hno
      have hany : (lookupRD (computeReachingDefinitions g) n.id).any
          (fun p => decide (p.1 = v)) = false := (anyFst_false_iff _ v).mpr hno
      exact ⟨⟨v, n.id, st.lineOf⟩,
        (mem_findUninit g _).mpr ⟨n, hn, st, hst, v, hv, hany, rfl⟩, rfl, rfl⟩
  · intro g e n hN he hn hest hep hnp st hst v hv
    have hrd := rdRun_entry hN he hn hest hep hnp 100 (initRD g.nodes)
      (lookupRD_init g.nodes e.id) (lookupRD_init g.nodes n.id)
    have hany : (lookupRD (computeReachingDefinitions g) n.id).any
        (fun p => decide (p.1 = v)) = false := by
      have hnil : lookupRD (computeReachingDefinitions g) n.id = [] := hrd.2
      rw [hnil]
      rfl
    exact ⟨⟨v, n.id, st.lineOf⟩,
      (mem_findUninit g _).mpr ⟨n, hn, st, hst, v, hv, hany, rfl⟩, rfl, rfl⟩

/-- C6 witness: in the CFG of `\x7b let y = p + 1; return y; \x7d` the
node for `let y = p + 1;` (id 2) has the entry node as its only
predecessor and uses the parameter `p`, so the analyzer warns about `p`
there. -/
theorem C6_witness :
    ∃ w ∈ findUninitializedVariables wGraph, w.var_name = "p" ∧ w.node_id = 2 :=
  C6_uninitialized_iff.2 wGraph
    ⟨0, .entry, none, [2], []⟩
    ⟨2, .statement, some (.letBinding "y" "p + 1" false 2 "let y = p + 1;" 1), [3], [0]⟩
    (by decide) (by decide) (by decide) rfl rfl rfl
    (.letBinding "y" "p + 1" false 2 "let y = p + 1;" 1) rfl "p" (by decide)

/-- C7 (amended): across the iterative passes of
`compute_reaching_definitions`, every in-set and out-set only grows from
one iteration to the next, and the state the capped loop returns is always
one of the pass iterates — but the 100-iteration bound is not always
enough to reach the fixed point, so the cap-exit clause of the original
claim fails (see the long-chain counterexample). -/
theorem C7_amended :
    (∀ (nodes : List CFGNode) (k i : Nat) (x : String × Nat),
      (x ∈ lookupRD (rdIter nodes k).rin i → x ∈ lookupRD (rdIter nodes (k + 1)).rin i) ∧
      (x ∈ lookupRD (rdIter nodes k).rout i → x ∈ lookupRD (rdIter nodes (k + 1)).rout i)) ∧
    (∀ (nodes : List CFGNode) (fuel : Nat), ∃ j ≤ fuel,
      (rdRun nodes fuel (initRD nodes)).1 = rdIter nodes j) := by
  constructor
  · intro nodes k i x
    exact ⟨fun hx => (rdIter_mono nodes k).1 i x hx,
           fun hx => (rdIter_mono nodes k).2 i x hx⟩
  · intro nodes fuel
    obtain ⟨j, hj, hr⟩ := rdRun_is_iter nodes fuel 0
    exact ⟨j, hj, by simpa using hr⟩

/-- C7 witness: on the linear CFG of `\x7b let y = p + 1; return y; \x7d`
the fact ("y", 2) reaches node 3 after one pass and, by monotonicity,
still does after two. -/
theorem C7_witness :
    ("y", 2) ∈ lookupRD (rdIter wGraph.nodes 1).rin 3 ∧
    ("y", 2) ∈ lookupRD (rdIter wGraph.nodes 2).rin 3 :=
  ⟨by decide, (C7_amended.1 wGraph.nodes 1 3 ("y", 2)).1 (by decide)⟩

/-! ## The long-chain cap counterexample -/

theorem rdStep_fst_eq (acc : Bool × RDState) (m : CFGNode) :
    (rdStep acc m).1 =
      ((acc.1 ||
        !(seteqRD (m.predecessors.foldl (fun a p => unionRD a (lookupRD acc.2.rout p)) [])
            (lookupRD acc.2.rin m.id))) ||
       !(seteqRD
           (unionRD ((defsOfOpt m.statement).map (fun v => (v, m.id)))
             ((m.predecessors.foldl (fun a p => unionRD a (lookupRD acc.2.rout p)) []).filter
               (fun p => !(decide (p.1 ∈ defsOfOpt m.statement) && decide (p.2 ≠ m.id)))))
           (lookupRD acc.2.rout m.id))) := rfl

/-- Rewriting a key with the value it already looks up to leaves every
lookup unchanged. -/
theorem lookupRD_setRD_same (m : RDMap) (i : Nat) (w : RDSet)
    (h : lookupRD m i = w) : lookupRD (setRD m i w) i = w := by
  induction m with
  | nil => exact h
  | cons e t ih =>
    obtain ⟨k, v⟩ := e
    by_cases hk : k = i
    · subst hk
      simp [setRD, lookupRD]
    · simp only [lookupRD, if_neg hk] at h
      simp only [setRD, if_neg hk, lookupRD, if_neg hk]
      exact ih h

/-- A statement-free node kills nothing and generates nothing, so its new
out-set is exactly its new in-set. -/
theorem chain_new_out_none (g : Nat) (l : RDSet) :
    unionRD ((defsOfOpt none).map (fun v => (v, g)))
      (l.filter (fun p => !(decide (p.1 ∈ defsOfOpt none) && decide (p.2 ≠ g)))) = l := by
  show unionRD []
      (l.filter (fun p => !(decide (p.1 ∈ defsOfOpt none) && decide (p.2 ≠ g)))) = l
  have h1 : (l.filter (fun p => !(decide (p.1 ∈ defsOfOpt none) && decide (p.2 ≠ g)))) = l :=
    List.filter_eq_self.mpr (fun x _ => by simp [defsOfOpt])
  rw [h1]
  show l.filter (fun x => decide (x ∉ ([] : RDSet))) = l
  exact List.filter_eq_self.mpr (fun x _ => by simp)

theorem chainSeg_append : ∀ (m a n : Nat),
    chainSeg a (m + n) = chainSeg a m ++ chainSeg (a + m) n
  | 0, a, n => by rw [Nat.zero_add, Nat.add_zero]; rfl
  | m + 1, a, n => by
    have h1 : m + 1 + n = (m + n) + 1 := by omega
    have h2 : a + 1 + m = a + (m + 1) := by omega
    rw [h1]
    show mkChainNode a :: chainSeg (a + 1) (m + n) = _
    rw [chainSeg_append m (a + 1) n, h2]
    rfl

theorem chainSeg_mem_id : ∀ (n a i : Nat), a ≤ i → i < a + n →
    i ∈ (chainSeg a n).map CFGNode.id
  | 0, _, _, h1, h2 => absurd h2 (by omega)
  | n + 1, a, i, h1, h2 => by
    simp only [chainSeg, List.map_cons, List.mem_cons]
    rcases Nat.eq_or_lt_of_le h1 with he | hlt
    · exact Or.inl he.symm
    · exact Or.inr (chainSeg_mem_id n (a + 1) i hlt (by omega))

/-- A chain node strictly below the wavefront rewrites its two entries
with the empty sets they already hold: nothing changes. -/
theorem chain_step_low (acc : Bool × RDState) (i f : Nat)
    (hif : i + 1 < f) (hf : f ≤ 102)
    (hR1 : ∀ j, j < f → lookupRD acc.2.rout j = [])
    (hN1 : ∀ j, j < f → lookupRD acc.2.rin j = []) :
    (rdStep acc (mkChainNode i)).1 = acc.1 ∧
    (∀ j, lookupRD (rdStep acc (mkChainNode i)).2.rin j = lookupRD acc.2.rin j) ∧
    (∀ j, lookupRD (rdStep acc (mkChainNode i)).2.rout j = lookupRD acc.2.rout j) := by
  have hi : i < 101 := by omega
  have hpred : (mkChainNode i).predecessors = [i + 1] := by
    simp [mkChainNode, hi]
  have hstm : (mkChainNode i).statement = none := by
    simp [mkChainNode, show ¬ i = 101 from by omega]
  have hid : (mkChainNode i).id = i := rfl
  have hnew : (mkChainNode i).predecessors.foldl
      (fun a p => unionRD a (lookupRD acc.2.rout p)) [] = [] := by
    rw [hpred]
    simp only [List.foldl_cons, List.foldl_nil]
    rw [hR1 (i + 1) hif]
    rfl
  refine ⟨?_, ?_, ?_⟩
  · rw [rdStep_fst_eq, hid, hstm, hnew, hR1 i (by omega), hN1 i (by omega),
      chain_new_out_none i ([] : RDSet)]
    have b1 : (!seteqRD ([] : RDSet) []) = false := rfl
    rw [b1]
    simp
  · intro j
    rw [rdStep_rin_eq, hid, hnew]
    by_cases hj : j = i
    · subst hj
      rw [lookupRD_setRD_nil, hN1 j (by omega)]
    · rw [lookupRD_setRD_ne _ _ _ _ hj]
  · intro j
    rw [rdStep_rout_eq, hid, hstm, hnew, chain_new_out_none i ([] : RDSet)]
    by_cases hj : j = i
    · subst hj
      rw [lookupRD_setRD_nil, hR1 j (by omega)]
    · rw [lookupRD_setRD_ne _ _ _ _ hj]

/-- The wavefront node: its predecessor now carries the definition while
its own in-set is still empty, so the pass flags a change and the
definition steps down to it. -/
theorem chain_step_front (acc : Bool × RDState) (g : Nat) (hg : g < 101)
    (hRg1 : lookupRD acc.2.rout (g + 1) = [("x", 101)])
    (hNg : lookupRD acc.2.rin g = [])
    (hkin : g ∈ acc.2.rin.map Prod.fst)
    (hkout : g ∈ acc.2.rout.map Prod.fst) :
    (rdStep acc (mkChainNode g)).1 = true ∧
    lookupRD (rdStep acc (mkChainNode g)).2.rin g = [("x", 101)] ∧
    lookupRD (rdStep acc (mkChainNode g)).2.rout g = [("x", 101)] ∧
    (∀ j, j ≠ g → lookupRD (rdStep acc (mkChainNode g)).2.rin j = lookupRD acc.2.rin j) ∧
    (∀ j, j ≠ g → lookupRD (rdStep acc (mkChainNode g)).2.rout j = lookupRD acc.2.rout j) := by
  have hpred : (mkChainNode g).predecessors = [g + 1] := by simp [mkChainNode, hg]
  have hstm : (mkChainNode g).statement = none := by
    simp [mkChainNode, show ¬ g = 101 from by omega]
  have hid : (mkChainNode g).id = g := rfl
  have hnew : (mkChainNode g).predecessors.foldl
      (fun a p => unionRD a (lookupRD acc.2.rout p)) [] = [("x", 101)] := by
    rw [hpred]
    simp only [List.foldl_cons, List.foldl_nil]
    rw [hRg1]
    rfl
  refine ⟨?_, ?_, ?_, ?_, ?_⟩
  · rw [rdStep_fst_eq, hid, hnew, hNg]
    have b1 : (!seteqRD ([("x", 101)] : RDSet) []) = true := rfl
    rw [b1]
    simp
  · rw [rdStep_rin_eq, hid, hnew]
    exact lookupRD_setRD_self _ _ _ hkin
  · rw [rdStep_rout_eq, hid, hstm, hnew, chain_new_out_none g ([("x", 101)] : RDSet)]
    exact lookupRD_setRD_self _ _ _ hkout
  · intro j hj
    rw [rdStep_rin_eq, hid]
    exact lookupRD_setRD_ne _ _ _ _ hj
  · intro j hj
    rw [rdStep_rout_eq, hid]
    exact lookupRD_setRD_ne _ _ _ _ hj

/-- A chain node the wavefront has already passed rewrites both its
entries with the very sets they hold: nothing changes. -/
theorem chain_step_high (acc : Bool × RDState) (j : Nat) (hj : j < 101)
    (hRj1 : lookupRD acc.2.rout (j + 1) = [("x", 101)])
    (hNj : lookupRD acc.2.rin j = [("x", 101)])
    (hRj : lookupRD acc.2.rout j = [("x", 101)]) :
    (rdStep acc (mkChainNode j)).1 = acc.1 ∧
    (∀ i, lookupRD (rdStep acc (mkChainNode j)).2.rin i = lookupRD acc.2.rin i) ∧
    (∀ i, lookupRD (rdStep acc (mkChainNode j)).2.rout i = lookupRD acc.2.rout i) := by
  have hpred : (mkChainNode j).predecessors = [j + 1] := by simp [mkChainNode, hj]
  have hstm : (mkChainNode j).statement = none := by
    simp [mkChainNode, show ¬ j = 101 from by omega]
  have hid : (mkChainNode j).id = j := rfl
  have hnew : (mkChainNode j).predecessors.foldl
      (fun a p => unionRD a (lookupRD acc.2.rout p)) [] = [("x", 101)] := by
    rw [hpred]
    simp only [List.foldl_cons, List.foldl_nil]
    rw [hRj1]
    rfl
  refine ⟨?_, ?_, ?_⟩
  · rw [rdStep_fst_eq, hid, hstm, hnew, hNj, hRj,
      chain_new_out_none j ([("x", 101)] : RDSet)]
    have b1 : (!seteqRD ([("x", 101)] : RDSet) [("x", 101)]) = false := rfl
    rw [b1]
    simp
  · intro i
    rw [rdStep_rin_eq, hid, hnew]
    by_cases hij : i = j
    · subst hij
      rw [lookupRD_setRD_same _ _ _ hNj, hNj]
    · rw [lookupRD_setRD_ne _ _ _ _ hij]
  · intro i
    rw [rdStep_rout_eq, hid, hstm, hnew, chain_new_out_none j ([("x", 101)] : RDSet)]
    by_cases hij : i = j
    · subst hij
      rw [lookupRD_setRD_same _ _ _ hRj, hRj]
    · rw [lookupRD_setRD_ne _ _ _ _ hij]

/-- Node 101 regenerates its own definition: once its out-set holds it,
nothing changes there. -/
theorem chain_step_101 (acc : Bool × RDState)
    (hN : lookupRD acc.2.rin 101 = [])
    (hR : lookupRD acc.2.rout 101 = [("x", 101)]) :
    (rdStep acc (mkChainNode 101)).1 = acc.1 ∧
    (∀ i, lookupRD (rdStep acc (mkChainNode 101)).2.rin i = lookupRD acc.2.rin i) ∧
    (∀ i, lookupRD (rdStep acc (mkChainNode 101)).2.rout i = lookupRD acc.2.rout i) := by
  have hstm : (mkChainNode 101).statement = some chainStmt := rfl
  have hid : (mkChainNode 101).id = 101 := rfl
  have hnew : (mkChainNode 101).predecessors.foldl
      (fun a p => unionRD a (lookupRD acc.2.rout p)) [] = [] := rfl
  have hval : unionRD ((defsOfOpt (some chainStmt)).map (fun v => (v, (101 : Nat))))
      (([] : RDSet).filter
        (fun p => !(decide (p.1 ∈ defsOfOpt (some chainStmt)) && decide (p.2 ≠ (101 : Nat)))))
      = [("x", 101)] := by decide
  refine ⟨?_, ?_, ?_⟩
  · rw [rdStep_fst_eq, hid, hstm, hnew, hN, hR, hval]
    have b1 : (!seteqRD ([] : RDSet) []) = false := rfl
    have b2 : (!seteqRD ([("x", 101)] : RDSet) [("x", 101)]) = false := rfl
    rw [b1, b2]
    simp
  · intro i
    rw [rdStep_rin_eq, hid, hnew]
    by_cases hij : i = 101
    · subst hij
      rw [lookupRD_setRD_nil, hN]
    · rw [lookupRD_setRD_ne _ _ _ _ hij]
  · intro i
    rw [rdStep_rout_eq, hid, hstm, hnew, hval]
    by_cases hij : i = 101
    · subst hij
      rw [lookupRD_setRD_same _ _ _ hR, hR]
    · rw [lookupRD_setRD_ne _ _ _ _ hij]

/-- Node 101 in the very first pass: its generated definition differs
from its empty out-set, so the flag flips and the wave starts. -/
theorem chain_step_101_first (acc : Bool × RDState)
    (hN : lookupRD acc.2.rin 101 = [])
    (hR : lookupRD acc.2.rout 101 = [])
    (hkout : 101 ∈ acc.2.rout.map Prod.fst) :
    (rdStep acc (mkChainNode 101)).1 = true ∧
    (∀ i, lookupRD (rdStep acc (mkChainNode 101)).2.rin i = lookupRD acc.2.rin i) ∧
    lookupRD (rdStep acc (mkChainNode 101)).2.rout 101 = [("x", 101)] ∧
    (∀ i, i ≠ 101 → lookupRD (rdStep acc (mkChainNode 101)).2.rout i = lookupRD acc.2.rout i) := by
  have hstm : (mkChainNode 101).statement = some chainStmt := rfl
  have hid : (mkChainNode 101).id = 101 := rfl
  have hnew : (mkChainNode 101).predecessors.foldl
      (fun a p => unionRD a (lookupRD acc.2.rout p)) [] = [] := rfl
  have hval : unionRD ((defsOfOpt (some chainStmt)).map (fun v => (v, (101 : Nat))))
      (([] : RDSet).filter
        (fun p => !(decide (p.1 ∈ defsOfOpt (some chainStmt)) && decide (p.2 ≠ (101 : Nat)))))
      = [("x", 101)] := by decide
  refine ⟨?_, ?_, ?_, ?_⟩
  · rw [rdStep_fst_eq, hid, hstm, hnew, hN, hR, hval]
    have b2 : (!seteqRD ([("x", 101)] : RDSet) []) = true := rfl
    rw [b2]
    simp
  · intro i
    rw [rdStep_rin_eq, hid, hnew]
    by_cases hij : i = 101
    · subst hij
      rw [lookupRD_setRD_nil, hN]
    · rw [lookupRD_setRD_ne _ _ _ _ hij]
  · rw [rdStep_rout_eq, hid, hstm, hnew, hval]
    exact lookupRD_setRD_self _ _ _ hkout
  · intro i hij
    rw [rdStep_rout_eq, hid]
    exact lookupRD_setRD_ne _ _ _ _ hij

theorem initRD_keys (nodes : List CFGNode) :
    (initRD nodes).rin.map Prod.fst = nodes.map CFGNode.id ∧
    (initRD nodes).rout.map Prod.fst = nodes.map CFGNode.id := by
  constructor <;>
    · show (nodes.map (fun n => (n.id, ([] : RDSet)))).map Prod.fst = nodes.map CFGNode.id
      rw [List.map_map]
      rfl

/-- Folding the chain prefix strictly below the wavefront changes
nothing. -/
theorem chain_fold_low (f : Nat) (hf : f ≤ 102) :
    ∀ (n a : Nat) (acc : Bool × RDState), a + n < f →
      (∀ j, j < f → lookupRD acc.2.rout j = []) →
      (∀ j, j < f → lookupRD acc.2.rin j = []) →
      ((chainSeg a n).foldl rdStep acc).1 = acc.1 ∧
      (∀ j, lookupRD ((chainSeg a n).foldl rdStep acc).2.rin j = lookupRD acc.2.rin j) ∧
      (∀ j, lookupRD ((chainSeg a n).foldl rdStep acc).2.rout j = lookupRD acc.2.rout j)
  | 0, _, _, _, _, _ => ⟨rfl, fun _ => rfl, fun _ => rfl⟩
  | n + 1, a, acc, han, hR, hN => by
    have hstep := chain_step_low acc a f (by omega) hf hR hN
    have hrec := chain_fold_low f hf n (a + 1) (rdStep acc (mkChainNode a))
      (by omega)
      (fun j hj => (hstep.2.2 j).trans (hR j hj))
      (fun j hj => (hstep.2.1 j).trans (hN j hj))
    exact ⟨hrec.1.trans hstep.1,
      fun j => (hrec.2.1 j).trans (hstep.2.1 j),
      fun j => (hrec.2.2 j).trans (hstep.2.2 j)⟩

/-- Folding the chain suffix the wavefront has already passed changes
nothing. -/
theorem chain_fold_high :
    ∀ (n a : Nat) (acc : Bool × RDState), a + n = 102 → 1 ≤ a →
      (∀ j, a ≤ j → j ≤ 100 → lookupRD acc.2.rin j = [("x", 101)]) →
      (∀ j, a ≤ j → j ≤ 101 → lookupRD acc.2.rout j = [("x", 101)]) →
      lookupRD acc.2.rin 101 = [] →
      ((chainSeg a n).foldl rdStep acc).1 = acc.1 ∧
      (∀ j, lookupRD ((chainSeg a n).foldl rdStep acc).2.rin j = lookupRD acc.2.rin j) ∧
      (∀ j, lookupRD ((chainSeg a n).foldl rdStep acc).2.rout j = lookupRD acc.2.rout j)
  | 0, _, _, _, _, _, _, _ => ⟨rfl, fun _ => rfl, fun _ => rfl⟩
  | n + 1, a, acc, han, ha1, hNin, hRout, hN101 => by
    by_cases ha : a = 101
    · subst ha
      have hn0 : n = 0 := by omega
      subst hn0
      have hstep := chain_step_101 acc hN101 (hRout 101 (by omega) (by omega))
      exact ⟨hstep.1, hstep.2.1, hstep.2.2⟩
    · have haa : a < 101 := by omega
      have hstep := chain_step_high acc a haa
        (hRout (a + 1) (by omega) (by omega))
        (hNin a (by omega) (by omega))
        (hRout a (by omega) (by omega))
      have hrec := chain_fold_high n (a + 1) (rdStep acc (mkChainNode a))
        (by omega) (by omega)
        (fun j h1 h2 => (hstep.2.1 j).trans (hNin j (by omega) h2))
        (fun j h1 h2 => (hstep.2.2 j).trans (hRout j (by omega) h2))
        ((hstep.2.1 101).trans hN101)
      exact ⟨hrec.1.trans hstep.1,
        fun j => (hrec.2.1 j).trans (hstep.2.1 j),
        fun j => (hrec.2.2 j).trans (hstep.2.2 j)⟩

/-- One full pass with the wavefront at `t + 1` flags a change and moves
the wavefront to `t`. -/
theorem chain_pass (t k : Nat) (htk : t + k = 100) (s : RDState)
    (hs : chainFront (t + 1) s)
    (hka : s.rin.map Prod.fst = (chainSeg 0 102).map CFGNode.id)
    (hkb : s.rout.map Prod.fst = (chainSeg 0 102).map CFGNode.id) :
    (rdPass (chainSeg 0 102) s).1 = true ∧
    chainFront t (rdPass (chainSeg 0 102) s).2 := by
  obtain ⟨hR1, hR2, hN1, hN2, hN3⟩ := hs
  have ht100 : t ≤ 100 := by omega
  have hsplit : chainSeg 0 102 = chainSeg 0 t ++ mkChainNode t :: chainSeg (t + 1) (k + 1) := by
    have h1 : (102 : Nat) = t + (k + 2) := by omega
    rw [h1, chainSeg_append t 0 (k + 2), Nat.zero_add]
    rfl
  rw [rdPass, hsplit, List.foldl_append, List.foldl_cons]
  have hA := chain_fold_low (t + 1) (by omega) t 0 (false, s) (by omega) hR1 hN1
  set accA := (chainSeg 0 t).foldl rdStep (false, s) with haccA
  clear_value accA
  have hkinA : t ∈ accA.2.rin.map Prod.fst := by
    rw [haccA, (foldl_rdStep_map_fst (chainSeg 0 t) (false, s)).1,
      show (false, s).2.rin = s.rin from rfl, hka]
    exact chainSeg_mem_id 102 0 t (by omega) (by omega)
  have hkoutA : t ∈ accA.2.rout.map Prod.fst := by
    rw [haccA, (foldl_rdStep_map_fst (chainSeg 0 t) (false, s)).2,
      show (false, s).2.rout = s.rout from rfl, hkb]
    exact chainSeg_mem_id 102 0 t (by omega) (by omega)
  have hF := chain_step_front accA t (by omega)
    ((hA.2.2 (t + 1)).trans (hR2 (t + 1) (by omega) (by omega)))
    ((hA.2.1 t).trans (hN1 t (by omega)))
    hkinA hkoutA
  set accB := rdStep accA (mkChainNode t) with haccB
  clear_value accB
  have hC := chain_fold_high (k + 1) (t + 1) accB (by omega) (by omega)
    (fun j h1 h2 => (hF.2.2.2.1 j (by omega)).trans
      ((hA.2.1 j).trans (hN2 j (by omega) h2)))
    (fun j h1 h2 => (hF.2.2.2.2 j (by omega)).trans
      ((hA.2.2 j).trans (hR2 j (by omega) h2)))
    ((hF.2.2.2.1 101 (by omega)).trans ((hA.2.1 101).trans hN3))
  constructor
  · rw [hC.1, hF.1]
  · refine ⟨?_, ?_, ?_, ?_, ?_⟩
    · intro j hj
      exact (hC.2.2 j).trans ((hF.2.2.2.2 j (by omega)).trans
        ((hA.2.2 j).trans (hR1 j (by omega))))
    · intro j hj1 hj2
      rcases Nat.eq_or_lt_of_le hj1 with he | hlt
      · rw [hC.2.2 j, ← he]
        exact hF.2.2.1
      · exact (hC.2.2 j).trans ((hF.2.2.2.2 j (by omega)).trans
          ((hA.2.2 j).trans (hR2 j (by omega) hj2)))
    · intro j hj
      exact (hC.2.1 j).trans ((hF.2.2.2.1 j (by omega)).trans
        ((hA.2.1 j).trans (hN1 j (by omega))))
    · intro j hj1 hj2
      rcases Nat.eq_or_lt_of_le hj1 with he | hlt
      · rw [hC.2.1 j, ← he]
        exact hF.2.1
      · exact (hC.2.1 j).trans ((hF.2.2.2.1 j (by omega)).trans
          ((hA.2.1 j).trans (hN2 j (by omega) hj2)))
    · exact (hC.2.1 101).trans ((hF.2.2.2.1 101 (by omega)).trans
        ((hA.2.1 101).trans hN3))

/-- The first pass from the all-empty initial state flags a change and
establishes the wavefront at node 101. -/
theorem chain_first_pass :
    (rdPass (chainSeg 0 102) (initRD (chainSeg 0 102))).1 = true ∧
    chainFront 101 (rdPass (chainSeg 0 102) (initRD (chainSeg 0 102))).2 := by
  have hsplit : chainSeg 0 102 = chainSeg 0 101 ++ [mkChainNode 101] := by
    have h1 : (102 : Nat) = 101 + 1 := rfl
    rw [h1, chainSeg_append 101 0 1, Nat.zero_add]
    rfl
  obtain ⟨s0, hs0⟩ : ∃ s0, initRD (chainSeg 0 102) = s0 := ⟨_, rfl⟩
  rw [rdPass, hs0, hsplit, List.foldl_append, List.foldl_cons, List.foldl_nil]
  have hinit : ∀ j, lookupRD s0.rout j = [] := by
    rw [← hs0]
    exact fun j => lookupRD_init (chainSeg 0 102) j
  have hinit2 : ∀ j, lookupRD s0.rin j = [] := by
    rw [← hs0]
    exact fun j => lookupRD_init (chainSeg 0 102) j
  have hA := chain_fold_low 102 (by omega) 101 0 (false, s0)
    (by omega) (fun j _ => hinit j) (fun j _ => hinit2 j)
  set accA := (chainSeg 0 101).foldl rdStep (false, s0) with haccA
  clear_value accA
  have hkoutA : 101 ∈ accA.2.rout.map Prod.fst := by
    rw [haccA, (foldl_rdStep_map_fst (chainSeg 0 101) (false, s0)).2,
      show (false, s0).2.rout = s0.rout from rfl, ← hs0,
      (initRD_keys (chainSeg 0 102)).2]
    exact chainSeg_mem_id 102 0 101 (by omega) (by omega)
  have hF := chain_step_101_first accA
    ((hA.2.1 101).trans (hinit2 101))
    ((hA.2.2 101).trans (hinit 101))
    hkoutA
  constructor
  · exact hF.1
  · refine ⟨?_, ?_, ?_, ?_, ?_⟩
    · intro j hj
      exact (hF.2.2.2 j (by omega)).trans ((hA.2.2 j).trans (hinit j))
    · intro j hj1 hj2
      have hj : j = 101 := by omega
      subst hj
      exact hF.2.2.1
    · intro j hj
      exact (hF.2.1 j).trans ((hA.2.1 j).trans (hinit2 j))
    · intro j hj1 hj2
      exact absurd hj2 (by omega)
    · exact (hF.2.1 101).trans ((hA.2.1 101).trans (hinit2 101))

theorem rdRun_succ (nodes : List CFGNode) (fuel : Nat) (s : RDState) :
    rdRun nodes (fuel + 1) s =
      (match rdPass nodes s with
       | (true, s') => rdRun nodes fuel s'
       | (false, s') => (s', true)) := rfl

/-- With the wavefront at `g` and fewer than `g` passes of budget left,
every remaining pass still changes the state, so the capped loop reports
non-convergence, and the definition never reaches node 0. -/
theorem chain_run :
    ∀ (fuel g : Nat) (s : RDState), fuel < g → g ≤ 101 →
      chainFront g s →
      s.rin.map Prod.fst = (chainSeg 0 102).map CFGNode.id →
      s.rout.map Prod.fst = (chainSeg 0 102).map CFGNode.id →
      (rdRun (chainSeg 0 102) fuel s).2 = false ∧
      lookupRD (rdRun (chainSeg 0 102) fuel s).1.rin 0 = []
  | 0, g, s, hfg, _, hs, _, _ => ⟨rfl, hs.2.2.1 0 (by omega)⟩
  | fuel + 1, g, s, hfg, hg, hs, hka, hkb => by
    rcases g with _ | t
    · omega
    · obtain ⟨k, hk⟩ : ∃ k, t + k = 100 := ⟨100 - t, by omega⟩
      have hp := chain_pass t k hk s hs hka hkb
      rw [rdRun_succ]
      have hkeys := foldl_rdStep_map_fst (chainSeg 0 102) (false, s)
      rcases hpass : rdPass (chainSeg 0 102) s with ⟨flag, s'⟩
      have hflag : flag = true := by rw [hpass] at hp; exact hp.1
      subst hflag
      have hfront : chainFront t s' := by
        have h := hp.2
        rw [hpass] at h
        exact h
      have hkeys1 : s'.rin.map Prod.fst = (chainSeg 0 102).map CFGNode.id := by
        have h := hkeys.1
        rw [show (chainSeg 0 102).foldl rdStep (false, s)
            = rdPass (chainSeg 0 102) s from rfl, hpass] at h
        exact h.trans hka
      have hkeys2 : s'.rout.map Prod.fst = (chainSeg 0 102).map CFGNode.id := by
        have h := hkeys.2
        rw [show (chainSeg 0 102).foldl rdStep (false, s)
            = rdPass (chainSeg 0 102) s from rfl, hpass] at h
        exact h.trans hkb
      exact chain_run fuel t s' (by omega) (by omega) hfront hkeys1 hkeys2

set_option maxRecDepth 8192 in
/-- C7 counterexample: on the 102-node chain graph whose predecessor
order opposes the processing order, every one of the 100 permitted passes
still changes the state, so `compute_reaching_definitions` exits through
the iteration cap (the loop flag never sees a silent pass), and the
definition made at node 101 has not reached node 0 in the returned
approximate state — refuting the claim that the fixed point is always
reached within the 100-iteration bound. -/
theorem C7_counterexample :
    (rdRun chainCFG.nodes 100 (initRD chainCFG.nodes)).2 = false ∧
    lookupRD (rdRun chainCFG.nodes 100 (initRD chainCFG.nodes)).1.rin 0 = [] := by
  have hnodes : chainCFG.nodes = chainSeg 0 102 := rfl
  rw [hnodes]
  have hfp := chain_first_pass
  rw [show (100 : Nat) = 99 + 1 from rfl, rdRun_succ]
  have hkeys := foldl_rdStep_map_fst (chainSeg 0 102) (false, initRD (chainSeg 0 102))
  have hik := initRD_keys (chainSeg 0 102)
  rcases hpass : rdPass (chainSeg 0 102) (initRD (chainSeg 0 102)) with ⟨flag, s'⟩
  have hflag : flag = true := by rw [hpass] at hfp; exact hfp.1
  subst hflag
  have hfront : chainFront 101 s' := by
    have h := hfp.2
    rw [hpass] at h
    exact h
  have hkeys1 : s'.rin.map Prod.fst = (chainSeg 0 102).map CFGNode.id := by
    have h := hkeys.1
    rw [show (chainSeg 0 102).foldl rdStep (false, initRD (chainSeg 0 102))
        = rdPass (chainSeg 0 102) (initRD (chainSeg 0 102)) from rfl, hpass] at h
    exact h.trans hik.1
  have hkeys2 : s'.rout.map Prod.fst = (chainSeg 0 102).map CFGNode.id := by
    have h := hkeys.2
    rw [show (chainSeg 0 102).foldl rdStep (false, initRD (chainSeg 0 102))
        = rdPass (chainSeg 0 102) (initRD (chainSeg 0 102)) from rfl, hpass] at h
    exact h.trans hik.2
  exact chain_run 99 101 s' (by omega) (by omega) hfront hkeys1 hkeys2

/-! ## C8: builder edge-consistency machinery -/

theorem succUpd_id (t : Nat) (x : CFGNode) : (succUpd t x).id = x.id := by
  unfold succUpd
  split <;> rfl

theorem succUpd_pred (t : Nat) (x : CFGNode) :
    (succUpd t x).predecessors = x.predecessors := by
  unfold succUpd
  split <;> rfl

theorem succUpd_succs (t : Nat) (x : CFGNode) :
    (succUpd t x).successors =
      if t ∈ x.successors then x.successors else x.successors ++ [t] := by
  unfold succUpd
  split <;> simp_all

theorem predUpd_id (f : Nat) (x : CFGNode) : (predUpd f x).id = x.id := by
  unfold predUpd
  split <;> rfl

theorem predUpd_succ (f : Nat) (x : CFGNode) :
    (predUpd f x).successors = x.successors := by
  unfold predUpd
  split <;> rfl

theorem predUpd_preds (f : Nat) (x : CFGNode) :
    (predUpd f x).predecessors =
      if f ∈ x.predecessors then x.predecessors else x.predecessors ++ [f] := by
  unfold predUpd
  split <;> simp_all

theorem mem_succUpd (t u : Nat) (x : CFGNode) :
    u ∈ (succUpd t x).successors ↔ u ∈ x.successors ∨ u = t := by
  rw [succUpd_succs]
  split
  · next h =>
    constructor
    · exact fun hu => Or.inl hu
    · rintro (hu | rfl)
      · exact hu
      · exact h
  · simp

theorem mem_predUpd (f u : Nat) (x : CFGNode) :
    u ∈ (predUpd f x).predecessors ↔ u ∈ x.predecessors ∨ u = f := by
  rw [predUpd_preds]
  split
  · next h =>
    constructor
    · exact fun hu => Or.inl hu
    · rintro (hu | rfl)
      · exact hu
      · exact h
  · simp

theorem addSucc_cons (f t : Nat) (n : CFGNode) (rest : List CFGNode) :
    addSucc f t (n :: rest) =
      if n.id = f then succUpd t n :: rest else n :: addSucc f t rest := rfl

theorem addPred_cons (f t : Nat) (n : CFGNode) (rest : List CFGNode) :
    addPred f t (n :: rest) =
      if n.id = t then predUpd f n :: rest else n :: addPred f t rest := rfl

theorem findNode_cons (n : CFGNode) (rest : List CFGNode) (i : Nat) :
    findNode (n :: rest) i = if n.id = i then some n else findNode rest i := by
  unfold findNode
  by_cases h : n.id = i
  · rw [if_pos h]
    exact List.find?_cons_of_pos _ (decide_eq_true h)
  · rw [if_neg h]
    exact List.find?_cons_of_neg _ (by simpa using h)

theorem findNode_some_id {l : List CFGNode} {i : Nat} {x : CFGNode}
    (h : findNode l i = some x) : x.id = i := by
  unfold findNode at h
  have h2 := List.find?_some h
  simp only [decide_eq_true_eq] at h2
  exact h2

theorem findNode_mem {l : List CFGNode} {i : Nat} {x : CFGNode}
    (h : findNode l i = some x) : x ∈ l :=
  List.mem_of_find?_eq_some h

theorem findNode_of_mem : ∀ (l : List CFGNode), (l.map CFGNode.id).Nodup →
    ∀ (x : CFGNode), x ∈ l → findNode l x.id = some x
  | [], _, x, hx => absurd hx (List.not_mem_nil x)
  | n :: rest, hN, x, hx => by
    rw [findNode_cons]
    rcases List.mem_cons.mp hx with rfl | hx2
    · rw [if_pos rfl]
    · have hcons : n.id ∉ rest.map CFGNode.id ∧ (rest.map CFGNode.id).Nodup := by
        rw [List.map_cons, List.nodup_cons] at hN
        exact hN
      have hne : ¬ n.id = x.id := by
        intro he
        exact hcons.1 (by rw [he]; exact List.mem_map.mpr ⟨x, hx2, rfl⟩)
      rw [if_neg hne]
      exact findNode_of_mem rest hcons.2 x hx2

theorem findNode_addSucc (f t : Nat) :
    ∀ (l : List CFGNode) (i : Nat),
      findNode (addSucc f t l) i =
        if i = f then (findNode l i).map (succUpd t) else findNode l i
  | [], i => by
    show (none : Option CFGNode) = if i = f then Option.map (succUpd t) none else none
    split <;> rfl
  | n :: rest, i => by
    by_cases hn : n.id = f
    · have h1 : addSucc f t (n :: rest) = succUpd t n :: rest := by
        rw [addSucc_cons, if_pos hn]
      rw [h1, findNode_cons, findNode_cons, succUpd_id]
      by_cases hi : n.id = i
      · rw [if_pos hi, if_pos hi, if_pos (show i = f by rw [← hi, hn])]
        rfl
      · rw [if_neg hi, if_neg hi]
        by_cases hif : i = f
        · exact absurd (hn.trans hif.symm) hi
        · rw [if_neg hif]
    · have h1 : addSucc f t (n :: rest) = n :: addSucc f t rest := by
        rw [addSucc_cons, if_neg hn]
      rw [h1, findNode_cons, findNode_cons]
      by_cases hi : n.id = i
      · rw [if_pos hi, if_pos hi, if_neg (show ¬ i = f from fun hif => hn (hi.trans hif))]
      · rw [if_neg hi, if_neg hi, findNode_addSucc f t rest i]

theorem findNode_addPred (f t : Nat) :
    ∀ (l : List CFGNode) (i : Nat),
      findNode (addPred f t l) i =
        if i = t then (findNode l i).map (predUpd f) else findNode l i
  | [], i => by
    show (none : Option CFGNode) = if i = t then Option.map (predUpd f) none else none
    split <;> rfl
  | n :: rest, i => by
    by_cases hn : n.id = t
    · have h1 : addPred f t (n :: rest) = predUpd f n :: rest := by
        rw [addPred_cons, if_pos hn]
      rw [h1, findNode_cons, findNode_cons, predUpd_id]
      by_cases hi : n.id = i
      · rw [if_pos hi, if_pos hi, if_pos (show i = t by rw [← hi, hn])]
        rfl
      · rw [if_neg hi, if_neg hi]
        by_cases hit : i = t
        · exact absurd (hn.trans hit.symm) hi
        · rw [if_neg hit]
    · have h1 : addPred f t (n :: rest) = n :: addPred f t rest := by
        rw [addPred_cons, if_neg hn]
      rw [h1, findNode_cons, findNode_cons]
      by_cases hi : n.id = i
      · rw [if_pos hi, if_pos hi, if_neg (show ¬ i = t from fun hit => hn (hi.trans hit))]
      · rw [if_neg hi, if_neg hi, findNode_addPred f t rest i]

theorem addSucc_map_id (f t : Nat) : ∀ l : List CFGNode,
    (addSucc f t l).map CFGNode.id = l.map CFGNode.id
  | [] => rfl
  | n :: rest => by
    by_cases hn : n.id = f
    · have h1 : addSucc f t (n :: rest) = succUpd t n :: rest := by
        rw [addSucc_cons, if_pos hn]
      rw [h1, List.map_cons, List.map_cons, succUpd_id]
    · have h1 : addSucc f t (n :: rest) = n :: addSucc f t rest := by
        rw [addSucc_cons, if_neg hn]
      rw [h1, List.map_cons, List.map_cons, addSucc_map_id f t rest]

theorem addPred_map_id (f t : Nat) : ∀ l : List CFGNode,
    (addPred f t l).map CFGNode.id = l.map CFGNode.id
  | [] => rfl
  | n :: rest => by
    by_cases hn : n.id = t
    · have h1 : addPred f t (n :: rest) = predUpd f n :: rest := by
        rw [addPred_cons, if_pos hn]
      rw [h1, List.map_cons, List.map_cons, predUpd_id]
    · have h1 : addPred f t (n :: rest) = n :: addPred f t rest := by
        rw [addPred_cons, if_neg hn]
      rw [h1, List.map_cons, List.map_cons, addPred_map_id f t rest]

/-- `add_edge` preserves the builder invariant, provided the edge does
not leave the exit node nor enter the entry node. -/
theorem addEdge_inv {g : ControlFlowGraph} {c : Nat} (hInv : cfgInv g.nodes c)
    {f t : Nat} (hf : f ≠ 1) (ht : t ≠ 0) :
    cfgInv (g.addEdge f t).nodes c := by
  obtain ⟨hids, hbound, hcons, hentry, hexit⟩ := hInv
  unfold ControlFlowGraph.addEdge
  cases hgf : g.getNode f with
  | none => exact ⟨hids, hbound, hcons, hentry, hexit⟩
  | some nf =>
    cases hgt : g.getNode t with
    | none => exact ⟨hids, hbound, hcons, hentry, hexit⟩
    | some nt =>
      have hff : findNode g.nodes f = some nf := hgf
      have htt : findNode g.nodes t = some nt := hgt
      have hfc : f < c := by
        have hmem : f ∈ g.nodes.map CFGNode.id :=
          List.mem_map.mpr ⟨nf, findNode_mem hff, findNode_some_id hff⟩
        rw [hids] at hmem
        exact List.mem_range.mp hmem
      have htc : t < c := by
        have hmem : t ∈ g.nodes.map CFGNode.id :=
          List.mem_map.mpr ⟨nt, findNode_mem htt, findNode_some_id htt⟩
        rw [hids] at hmem
        exact List.mem_range.mp hmem
      have hlook : ∀ i, findNode (addPred f t (addSucc f t g.nodes)) i =
          if i = t then
            (if i = f then (findNode g.nodes i).map (succUpd t)
             else findNode g.nodes i).map (predUpd f)
          else
            (if i = f then (findNode g.nodes i).map (succUpd t)
             else findNode g.nodes i) := by
        intro i
        rw [findNode_addPred f t _ i, findNode_addSucc f t g.nodes i]
      have hdest : ∀ i x, findNode (addPred f t (addSucc f t g.nodes)) i = some x →
          ∃ x0, findNode g.nodes i = some x0 ∧ x.id = x0.id ∧
            x.successors = (if i = f then (succUpd t x0).successors else x0.successors) ∧
            x.predecessors = (if i = t then (predUpd f x0).predecessors
                              else x0.predecessors) := by
        intro i x hx
        rw [hlook i] at hx
        by_cases hit : i = t <;> by_cases hif : i = f
        · rw [if_pos hit, if_pos hif] at hx
          rcases Option.map_eq_some'.mp hx with ⟨x1, hx1, hx1e⟩
          rcases Option.map_eq_some'.mp hx1 with ⟨x0, hx0, hx0e⟩
          refine ⟨x0, hx0, ?_, ?_, ?_⟩
          · rw [← hx1e, ← hx0e, predUpd_id, succUpd_id]
          · rw [← hx1e, ← hx0e, predUpd_succ, if_pos hif]
          · rw [← hx1e, ← hx0e, if_pos hit, predUpd_preds, predUpd_preds, succUpd_pred]
        · rw [if_pos hit, if_neg hif] at hx
          rcases Option.map_eq_some'.mp hx with ⟨x0, hx0, hx0e⟩
          refine ⟨x0, hx0, ?_, ?_, ?_⟩
          · rw [← hx0e, predUpd_id]
          · rw [← hx0e, predUpd_succ, if_neg hif]
          · rw [← hx0e, if_pos hit]
        · rw [if_neg hit, if_pos hif] at hx
          rcases Option.map_eq_some'.mp hx with ⟨x0, hx0, hx0e⟩
          refine ⟨x0, hx0, ?_, ?_, ?_⟩
          · rw [← hx0e, succUpd_id]
          · rw [← hx0e, if_pos hif]
          · rw [← hx0e, succUpd_pred, if_neg hit]
        · rw [if_neg hit, if_neg hif] at hx
          exact ⟨x, hx, rfl, by rw [if_neg hif], by rw [if_neg hit]⟩
      show cfgInv (addPred f t (addSucc f t g.nodes)) c
      refine ⟨?_, ?_, ?_, ?_, ?_⟩
      · rw [addPred_map_id, addSucc_map_id]
        exact hids
      · intro i x hx
        obtain ⟨x0, hx0, _, hsucc, hpred⟩ := hdest i x hx
        constructor
        · intro u hu
          rw [hsucc] at hu
          by_cases hif : i = f
          · rw [if_pos hif] at hu
            rcases (mem_succUpd t u x0).mp hu with h2 | rfl
            · exact (hbound i x0 hx0).1 u h2
            · exact htc
          · rw [if_neg hif] at hu
            exact (hbound i x0 hx0).1 u hu
        · intro u hu
          rw [hpred] at hu
          by_cases hit : i = t
          · rw [if_pos hit] at hu
            rcases (mem_predUpd f u x0).mp hu with h2 | rfl
            · exact (hbound i x0 hx0).2 u h2
            · exact hfc
          · rw [if_neg hit] at hu
            exact (hbound i x0 hx0).2 u hu
      · intro i j x y hx hy
        obtain ⟨x0, hx0, _, hsuccx, _⟩ := hdest i x hx
        obtain ⟨y0, hy0, _, _, hpredy⟩ := hdest j y hy
        rw [hsuccx, hpredy]
        by_cases hif : i = f <;> by_cases hjt : j = t
        · rw [if_pos hif, if_pos hjt]
          constructor
          · intro _
            exact (mem_predUpd f i y0).mpr (Or.inr hif)
          · intro _
            exact (mem_succUpd t j x0).mpr (Or.inr hjt)
        · rw [if_pos hif, if_neg hjt]
          constructor
          · intro hu
            rcases (mem_succUpd t j x0).mp hu with h2 | h2
            · exact (hcons i j x0 y0 hx0 hy0).mp h2
            · exact absurd h2 hjt
          · intro hu
            exact (mem_succUpd t j x0).mpr (Or.inl ((hcons i j x0 y0 hx0 hy0).mpr hu))
        · rw [if_neg hif, if_pos hjt]
          constructor
          · intro hu
            exact (mem_predUpd f i y0).mpr (Or.inl ((hcons i j x0 y0 hx0 hy0).mp hu))
          · intro hu
            rcases (mem_predUpd f i y0).mp hu with h2 | h2
            · exact (hcons i j x0 y0 hx0 hy0).mpr h2
            · exact absurd h2 hif
        · rw [if_neg hif, if_neg hjt]
          exact hcons i j x0 y0 hx0 hy0
      · intro x hx
        obtain ⟨x0, hx0, _, _, hpred⟩ := hdest 0 x hx
        rw [hpred, if_neg (show ¬ (0 : Nat) = t from fun h => ht h.symm)]
        exact hentry x0 hx0
      · intro x hx
        obtain ⟨x0, hx0, _, hsucc, _⟩ := hdest 1 x hx
        rw [hsucc, if_neg (show ¬ (1 : Nat) = f from fun h => hf h.symm)]
        exact hexit x0 hx0

theorem pair_eta {α β : Type} (p : α × β) : p = (p.1, p.2) := rfl

theorem edge_counter (b : BuildSt) (f t : Nat) : (b.edge f t).counter = b.counter := rfl

theorem addEdge_fields (g : ControlFlowGraph) (f t : Nat) :
    (g.addEdge f t).entry_node_id = g.entry_node_id ∧
    (g.addEdge f t).exit_node_ids = g.exit_node_ids := by
  unfold ControlFlowGraph.addEdge
  cases g.getNode f <;> cases g.getNode t <;> exact ⟨rfl, rfl⟩

theorem edge_fields (b : BuildSt) (f t : Nat) :
    (b.edge f t).cfg.entry_node_id = b.cfg.entry_node_id ∧
    (b.edge f t).cfg.exit_node_ids = b.cfg.exit_node_ids :=
  addEdge_fields b.cfg f t

/-- `BuildSt.edge` preserves the builder invariant for an edge that does
not leave the exit node nor enter the entry node. -/
theorem edge_inv {b : BuildSt} (hInv : cfgInv b.cfg.nodes b.counter)
    {f t : Nat} (hf : f ≠ 1) (ht : t ≠ 0) :
    cfgInv (b.edge f t).cfg.nodes (b.edge f t).counter :=
  addEdge_inv hInv hf ht

theorem createNode_fst (ty : CFGNodeType) (st? : Option Stmt) (b : BuildSt) :
    (createNode ty st? b).1 = b.counter := rfl

theorem createNode_counter (ty : CFGNodeType) (st? : Option Stmt) (b : BuildSt) :
    (createNode ty st? b).2.counter = b.counter + 1 := rfl

theorem createNode_fields (ty : CFGNodeType) (st? : Option Stmt) (b : BuildSt) :
    (createNode ty st? b).2.cfg.entry_node_id = b.cfg.entry_node_id ∧
    (createNode ty st? b).2.cfg.exit_node_ids = b.cfg.exit_node_ids := ⟨rfl, rfl⟩

theorem findNode_append_some {l : List CFGNode} {i : Nat} {x : CFGNode} (nw : CFGNode)
    (h : findNode l i = some x) : findNode (l ++ [nw]) i = some x := by
  unfold findNode at h ⊢
  rw [List.find?_append, h]
  rfl

theorem findNode_append_one (nw : CFGNode) :
    ∀ (l : List CFGNode) (i : Nat), findNode l i = none →
      findNode (l ++ [nw]) i = if nw.id = i then some nw else none
  | [], i, _ => by
    rw [List.nil_append, findNode_cons]
    rfl
  | n :: rest, i, h => by
    rw [List.cons_append, findNode_cons]
    rw [findNode_cons] at h
    by_cases hn : n.id = i
    · rw [if_pos hn] at h
      cases h
    · rw [if_neg hn] at h ⊢
      exact findNode_append_one nw rest i h

/-- `_create_node` preserves the builder invariant, growing the counter
by one. -/
theorem createNode_inv {b : BuildSt} (hInv : cfgInv b.cfg.nodes b.counter)
    (ty : CFGNodeType) (st? : Option Stmt) :
    cfgInv (createNode ty st? b).2.cfg.nodes (createNode ty st? b).2.counter := by
  obtain ⟨hids, hbound, hcons, hentry, hexit⟩ := hInv
  show cfgInv
    (b.cfg.nodes ++ [{ id := b.counter, node_type := ty, statement := st? }])
    (b.counter + 1)
  have hnone : findNode b.cfg.nodes b.counter = none := by
    unfold findNode
    rw [List.find?_eq_none]
    intro x hx
    simp only [decide_eq_true_eq]
    intro he
    have hmem : b.counter ∈ b.cfg.nodes.map CFGNode.id := List.mem_map.mpr ⟨x, hx, he⟩
    rw [hids] at hmem
    exact absurd (List.mem_range.mp hmem) (lt_irrefl b.counter)
  have hdest : ∀ i x,
      findNode (b.cfg.nodes ++ [{ id := b.counter, node_type := ty, statement := st? }]) i
        = some x →
      findNode b.cfg.nodes i = some x ∨
        (x = { id := b.counter, node_type := ty, statement := st? } ∧ i = b.counter) := by
    intro i x hx
    cases hfi : findNode b.cfg.nodes i with
    | some y =>
      rw [findNode_append_some _ hfi] at hx
      exact Or.inl hx
    | none =>
      rw [findNode_append_one _ _ i hfi] at hx
      by_cases hni : ({ id := b.counter, node_type := ty, statement := st? } : CFGNode).id = i
      · rw [if_pos hni] at hx
        exact Or.inr ⟨(Option.some_inj.mp hx).symm, hni.symm⟩
      · rw [if_neg hni] at hx
        cases hx
  refine ⟨?_, ?_, ?_, ?_, ?_⟩
  · rw [List.map_append, hids]
    exact (List.range_succ b.counter).symm
  · intro i x hx
    rcases hdest i x hx with h | ⟨rfl, rfl⟩
    · exact ⟨fun u hu => Nat.lt_succ_of_lt ((hbound i x h).1 u hu),
        fun u hu => Nat.lt_succ_of_lt ((hbound i x h).2 u hu)⟩
    · exact ⟨fun u hu => absurd hu (List.not_mem_nil u),
        fun u hu => absurd hu (List.not_mem_nil u)⟩
  · intro i j x y hx hy
    rcases hdest i x hx with h1 | ⟨rfl, rfl⟩ <;> rcases hdest j y hy with h2 | ⟨he, rfl⟩
    · exact hcons i j x y h1 h2
    · subst he
      constructor
      · intro hu
        exact absurd ((hbound i x h1).1 _ hu) (lt_irrefl b.counter)
      · intro hu
        exact absurd hu (List.not_mem_nil i)
    · constructor
      · intro hu
        exact absurd hu (List.not_mem_nil j)
      · intro hu
        exact absurd ((hbound j y h2).2 _ hu) (lt_irrefl b.counter)
    · subst he
      constructor
      · intro hu
        exact absurd hu (List.not_mem_nil b.counter)
      · intro hu
        exact absurd hu (List.not_mem_nil b.counter)
  · intro x hx
    rcases hdest 0 x hx with h | ⟨rfl, _⟩
    · exact hentry x h
    · rfl
  · intro x hx
    rcases hdest 1 x hx with h | ⟨rfl, _⟩
    · exact hexit x h
    · rfl

theorem buildGood_trans {a b c : BuildSt} (h1 : buildGood a b) (h2 : buildGood b c) :
    buildGood a c :=
  ⟨h2.1, le_trans h1.2.1 h2.2.1, h2.2.2.1.trans h1.2.2.1, h2.2.2.2.trans h1.2.2.2⟩

theorem buildGood_edge {b : BuildSt} (h : cfgInv b.cfg.nodes b.counter)
    {f t : Nat} (hf : f ≠ 1) (ht : t ≠ 0) : buildGood b (b.edge f t) :=
  ⟨edge_inv h hf ht, le_of_eq (edge_counter b f t).symm,
   (edge_fields b f t).1, (edge_fields b f t).2⟩

theorem buildGood_create {b : BuildSt} (h : cfgInv b.cfg.nodes b.counter)
    (ty : CFGNodeType) (st? : Option Stmt) : buildGood b (createNode ty st? b).2 :=
  ⟨createNode_inv h ty st?,
   le_of_eq_of_le rfl (by rw [createNode_counter]; exact Nat.le_succ b.counter),
   (createNode_fields ty st? b).1, (createNode_fields ty st? b).2⟩

/-- The tail every branch body of the builder ends with: connect the last
live node of a recursively built block to the merge node. -/
theorem buildGood_branchTail (fuel : Nat) (blk : List Stmt) (bid exitId mid : Nat)
    (b : BuildSt)
    (IH : buildGood b (buildSeq fuel blk bid exitId b).2 ∧
          (∀ r, (buildSeq fuel blk bid exitId b).1 = some r → r ≠ 1))
    (hmid : mid ≠ 0) :
    buildGood b
      (match buildSeq fuel blk bid exitId b with
       | (some last, bb) => bb.edge last mid
       | (none, bb) => bb) := by
  rcases hres : buildSeq fuel blk bid exitId b with ⟨r, bb⟩
  rw [hres] at IH
  cases r with
  | none => exact IH.1
  | some last => exact buildGood_trans IH.1 (buildGood_edge IH.1.1 (IH.2 last rfl) hmid)

/-- The `_build_if` arm of the sequential builder preserves the
invariant. -/
theorem buildSeq_if_body (fuel : Nat) (s : Stmt) (rest : List Stmt)
    (cur exitId : Nat) (b : BuildSt)
    (IH : ∀ (stmts : List Stmt) (cur2 : Nat) (b2 : BuildSt),
      cfgInv b2.cfg.nodes b2.counter → 2 ≤ b2.counter → cur2 ≠ 1 →
      buildGood b2 (buildSeq fuel stmts cur2 exitId b2).2 ∧
      (∀ r, (buildSeq fuel stmts cur2 exitId b2).1 = some r → r ≠ 1))
    (hInv : cfgInv b.cfg.nodes b.counter) (h2 : 2 ≤ b.counter) (hcur : cur ≠ 1)
    (hex : exitId ≠ 0) :
    buildGood b
      (let (bid, b) := createNode .branch (some s) b
       let b := b.edge cur bid
       let ex := extractIfBlocks s.depth rest
       let (mid, b) := createNode .merge none b
       let b :=
         if ex.1.isEmpty then b.edge bid mid
         else
           match buildSeq fuel ex.1 bid exitId b with
           | (some last, b) => b.edge last mid
           | (none, b) => b
       let b :=
         match ex.2.1 with
         | some eb =>
           if eb.isEmpty then b.edge bid mid
           else
             match buildSeq fuel eb bid exitId b with
             | (some last, b) => b.edge last mid
             | (none, b) => b
         | none => b.edge bid mid
       buildSeq fuel ex.2.2 mid exitId b).2 ∧
    (∀ r,
      (let (bid, b) := createNode .branch (some s) b
       let b := b.edge cur bid
       let ex := extractIfBlocks s.depth rest
       let (mid, b) := createNode .merge none b
       let b :=
         if ex.1.isEmpty then b.edge bid mid
         else
           match buildSeq fuel ex.1 bid exitId b with
           | (some last, b) => b.edge last mid
           | (none, b) => b
       let b :=
         match ex.2.1 with
         | some eb =>
           if eb.isEmpty then b.edge bid mid
           else
             match buildSeq fuel eb bid exitId b with
             | (some last, b) => b.edge last mid
             | (none, b) => b
         | none => b.edge bid mid
       buildSeq fuel ex.2.2 mid exitId b).1 = some r → r ≠ 1) := by
  dsimp only
  rw [createNode_fst .branch (some s) b]
  set b1 := (createNode .branch (some s) b).2 with hb1def
  have g1 : buildGood b b1 := by
    rw [hb1def]
    exact buildGood_create hInv .branch (some s)
  set b2 := b1.edge cur b.counter with hb2def
  have g2 : buildGood b b2 := by
    rw [hb2def]
    exact buildGood_trans g1 (buildGood_edge g1.1 hcur (by omega))
  have hb2c : b2.counter = b.counter + 1 := by
    rw [hb2def, edge_counter, hb1def, createNode_counter]
  rw [createNode_fst .merge none b2, hb2c]
  set b3 := (createNode .merge none b2).2 with hb3def
  have g3 : buildGood b b3 := by
    rw [hb3def]
    exact buildGood_trans g2 (buildGood_create g2.1 .merge none)
  have hbid1 : b.counter ≠ 1 := by omega
  have hmid0 : b.counter + 1 ≠ 0 := by omega
  have hmid1 : b.counter + 1 ≠ 1 := by omega
  have h23 : 2 ≤ b3.counter := le_trans h2 g3.2.1
  set ex := extractIfBlocks s.depth rest with hexdef
  have gT : buildGood b3
      (if ex.1.isEmpty then b3.edge b.counter (b.counter + 1)
       else
         match buildSeq fuel ex.1 b.counter exitId b3 with
         | (some last, bb) => bb.edge last (b.counter + 1)
         | (none, bb) => bb) := by
    by_cases hE : ex.1.isEmpty = true
    · rw [if_pos hE]
      exact buildGood_edge g3.1 hbid1 hmid0
    · rw [if_neg hE]
      exact buildGood_branchTail fuel ex.1 b.counter exitId (b.counter + 1) b3
        (IH ex.1 b.counter b3 g3.1 h23 hbid1) hmid0
  set bT := (if ex.1.isEmpty then b3.edge b.counter (b.counter + 1)
       else
         match buildSeq fuel ex.1 b.counter exitId b3 with
         | (some last, bb) => bb.edge last (b.counter + 1)
         | (none, bb) => bb) with hbTdef
  have h2T : 2 ≤ bT.counter := le_trans h23 gT.2.1
  have gE : buildGood bT
      (match ex.2.1 with
       | some eb =>
         if eb.isEmpty then bT.edge b.counter (b.counter + 1)
         else
           match buildSeq fuel eb b.counter exitId bT with
           | (some last, bb) => bb.edge last (b.counter + 1)
           | (none, bb) => bb
       | none => bT.edge b.counter (b.counter + 1)) := by
    cases heb : ex.2.1 with
    | none => exact buildGood_edge gT.1 hbid1 hmid0
    | some eb =>
      show buildGood bT
        (if eb.isEmpty then bT.edge b.counter (b.counter + 1)
         else
           match buildSeq fuel eb b.counter exitId bT with
           | (some last, bb) => bb.edge last (b.counter + 1)
           | (none, bb) => bb)
      by_cases hE2 : eb.isEmpty = true
      · rw [if_pos hE2]
        exact buildGood_edge gT.1 hbid1 hmid0
      · rw [if_neg hE2]
        exact buildGood_branchTail fuel eb b.counter exitId (b.counter + 1) bT
          (IH eb b.counter bT gT.1 h2T hbid1) hmid0
  set bE := (match ex.2.1 with
       | some eb =>
         if eb.isEmpty then bT.edge b.counter (b.counter + 1)
         else
           match buildSeq fuel eb b.counter exitId bT with
           | (some last, bb) => bb.edge last (b.counter + 1)
           | (none, bb) => bb
       | none => bT.edge b.counter (b.counter + 1)) with hbEdef
  have h2E : 2 ≤ bE.counter := le_trans h2T gE.2.1
  have IHfin := IH ex.2.2 (b.counter + 1) bE
    (buildGood_trans (buildGood_trans g3 gT) gE).1 h2E hmid1
  exact ⟨buildGood_trans (buildGood_trans (buildGood_trans g3 gT) gE) IHfin.1, IHfin.2⟩

/-- The `_build_match` arm of the sequential builder preserves the
invariant. -/
theorem buildSeq_match_body (fuel : Nat) (s : Stmt) (rest : List Stmt)
    (cur exitId : Nat) (b : BuildSt)
    (IH : ∀ (stmts : List Stmt) (cur2 : Nat) (b2 : BuildSt),
      cfgInv b2.cfg.nodes b2.counter → 2 ≤ b2.counter → cur2 ≠ 1 →
      buildGood b2 (buildSeq fuel stmts cur2 exitId b2).2 ∧
      (∀ r, (buildSeq fuel stmts cur2 exitId b2).1 = some r → r ≠ 1))
    (hInv : cfgInv b.cfg.nodes b.counter) (h2 : 2 ≤ b.counter) (hcur : cur ≠ 1)
    (hex : exitId ≠ 0) :
    buildGood b
      (let (bid, b) := createNode .branch (some s) b
       let b := b.edge cur bid
       let (mid, b) := createNode .merge none b
       let body := rest.takeWhile (fun t : Stmt => !(t.depth ≤ s.depth))
       let b :=
         if body.isEmpty then b.edge bid mid
         else
           match buildSeq fuel body bid exitId b with
           | (some last, b) => b.edge last mid
           | (none, b) => b
       buildSeq fuel (rest.dropWhile (fun t : Stmt => !(t.depth ≤ s.depth))) mid exitId b).2 ∧
    (∀ r,
      (let (bid, b) := createNode .branch (some s) b
       let b := b.edge cur bid
       let (mid, b) := createNode .merge none b
       let body := rest.takeWhile (fun t : Stmt => !(t.depth ≤ s.depth))
       let b :=
         if body.isEmpty then b.edge bid mid
         else
           match buildSeq fuel body bid exitId b with
           | (some last, b) => b.edge last mid
           | (none, b) => b
       buildSeq fuel (rest.dropWhile (fun t : Stmt => !(t.depth ≤ s.depth))) mid exitId b).1
        = some r → r ≠ 1) := by
  dsimp only
  rw [createNode_fst .branch (some s) b]
  set b1 := (createNode .branch (some s) b).2 with hb1def
  have g1 : buildGood b b1 := by
    rw [hb1def]
    exact buildGood_create hInv .branch (some s)
  set b2 := b1.edge cur b.counter with hb2def
  have g2 : buildGood b b2 := by
    rw [hb2def]
    exact buildGood_trans g1 (buildGood_edge g1.1 hcur (by omega))
  have hb2c : b2.counter = b.counter + 1 := by
    rw [hb2def, edge_counter, hb1def, createNode_counter]
  rw [createNode_fst .merge none b2, hb2c]
  set b3 := (createNode .merge none b2).2 with hb3def
  have g3 : buildGood b b3 := by
    rw [hb3def]
    exact buildGood_trans g2 (buildGood_create g2.1 .merge none)
  have hbid1 : b.counter ≠ 1 := by omega
  have hmid0 : b.counter + 1 ≠ 0 := by omega
  have hmid1 : b.counter + 1 ≠ 1 := by omega
  have h23 : 2 ≤ b3.counter := le_trans h2 g3.2.1
  set body := rest.takeWhile (fun t : Stmt => !(t.depth ≤ s.depth)) with hbodydef
  have gT : buildGood b3
      (if body.isEmpty then b3.edge b.counter (b.counter + 1)
       else
         match buildSeq fuel body b.counter exitId b3 with
         | (some last, bb) => bb.edge last (b.counter + 1)
         | (none, bb) => bb) := by
    by_cases hE : body.isEmpty = true
    · rw [if_pos hE]
      exact buildGood_edge g3.1 hbid1 hmid0
    · rw [if_neg hE]
      exact buildGood_branchTail fuel body b.counter exitId (b.counter + 1) b3
        (IH body b.counter b3 g3.1 h23 hbid1) hmid0
  set bT := (if body.isEmpty then b3.edge b.counter (b.counter + 1)
       else
         match buildSeq fuel body b.counter exitId b3 with
         | (some last, bb) => bb.edge last (b.counter + 1)
         | (none, bb) => bb) with hbTdef
  have h2T : 2 ≤ bT.counter := le_trans h23 gT.2.1
  have IHfin := IH (rest.dropWhile (fun t : Stmt => !(t.depth ≤ s.depth))) (b.counter + 1) bT
    (buildGood_trans g3 gT).1 h2T hmid1
  exact ⟨buildGood_trans (buildGood_trans g3 gT) IHfin.1, IHfin.2⟩

/-- `_build_sequential` preserves the builder invariant; its returned
last-node id is never the exit node. -/
theorem buildSeq_inv :
    ∀ (fuel : Nat) (stmts : List Stmt) (cur exitId : Nat) (b : BuildSt),
      cfgInv b.cfg.nodes b.counter → 2 ≤ b.counter → cur ≠ 1 → exitId ≠ 0 →
      buildGood b (buildSeq fuel stmts cur exitId b).2 ∧
      (∀ r, (buildSeq fuel stmts cur exitId b).1 = some r → r ≠ 1)
  | 0, [], cur, exitId, b, hInv, h2, hcur, hex =>
    ⟨⟨hInv, le_refl _, rfl, rfl⟩, fun r h => Option.noConfusion h⟩
  | 0, s :: rest, cur, exitId, b, hInv, h2, hcur, hex =>
    ⟨⟨hInv, le_refl _, rfl, rfl⟩, fun r h => Option.noConfusion h⟩
  | fuel + 1, [], cur, exitId, b, hInv, h2, hcur, hex =>
    ⟨⟨hInv, le_refl _, rfl, rfl⟩, fun r h => by
      have hr : cur = r := Option.some_inj.mp h
      rw [← hr]
      exact hcur⟩
  | fuel + 1, s :: rest, cur, exitId, b, hInv, h2, hcur, hex => by
    rw [buildSeq]
    by_cases hIf : s.isIf = true
    · rw [if_pos hIf]
      exact buildSeq_if_body fuel s rest cur exitId b
        (fun stmts cur2 b2 hi h22 hc2 =>
          buildSeq_inv fuel stmts cur2 exitId b2 hi h22 hc2 hex)
        hInv h2 hcur hex
    · rw [if_neg hIf]
      by_cases hM : s.isMatch = true
      · rw [if_pos hM]
        exact buildSeq_match_body fuel s rest cur exitId b
          (fun stmts cur2 b2 hi h22 hc2 =>
            buildSeq_inv fuel stmts cur2 exitId b2 hi h22 hc2 hex)
          hInv h2 hcur hex
      · rw [if_neg hM]
        by_cases hR : s.isRet = true
        · rw [if_pos hR]
          dsimp only
          rw [createNode_fst .statement (some s) b]
          set b1 := (createNode .statement (some s) b).2 with hb1def
          have g1 : buildGood b b1 := by
            rw [hb1def]
            exact buildGood_create hInv .statement (some s)
          set b2 := b1.edge cur b.counter with hb2def
          have g2 : buildGood b b2 := by
            rw [hb2def]
            exact buildGood_trans g1 (buildGood_edge g1.1 hcur (by omega))
          have g3 : buildGood b (b2.edge b.counter exitId) :=
            buildGood_trans g2 (buildGood_edge g2.1 (by omega) hex)
          exact ⟨g3, fun r h => absurd h (by
            show ¬ (none : Option Nat) = some r
            intro hh
            cases hh)⟩
        · rw [if_neg hR]
          dsimp only
          rw [createNode_fst .statement (some s) b]
          set b1 := (createNode .statement (some s) b).2 with hb1def
          have g1 : buildGood b b1 := by
            rw [hb1def]
            exact buildGood_create hInv .statement (some s)
          set b2 := b1.edge cur b.counter with hb2def
          have g2 : buildGood b b2 := by
            rw [hb2def]
            exact buildGood_trans g1 (buildGood_edge g1.1 hcur (by omega))
          have h22 : 2 ≤ b2.counter := le_trans h2 g2.2.1
          have IHfin := buildSeq_inv fuel rest b.counter exitId b2 g2.1 h22 (by omega) hex
          exact ⟨buildGood_trans g2 IHfin.1, IHfin.2⟩

/-- From the invariant, the membership form of edge consistency and the
entry/exit degree facts follow. -/
theorem cfgInv_transfer {g : ControlFlowGraph} {c : Nat} (h : cfgInv g.nodes c)
    (hentry : g.entry_node_id = some 0) (hexit : g.exit_node_ids = [1]) :
    (∀ a ∈ g.nodes, ∀ d ∈ g.nodes, (d.id ∈ a.successors ↔ a.id ∈ d.predecessors)) ∧
    (∀ a ∈ g.nodes, g.entry_node_id = some a.id → a.predecessors = []) ∧
    (∀ a ∈ g.nodes, a.id ∈ g.exit_node_ids → a.successors = []) := by
  obtain ⟨hids, _, hcons, hent, hx⟩ := h
  have hN : (g.nodes.map CFGNode.id).Nodup := by
    rw [hids]
    exact List.nodup_range c
  refine ⟨?_, ?_, ?_⟩
  · intro a ha d hd
    exact hcons a.id d.id a d (findNode_of_mem _ hN a ha) (findNode_of_mem _ hN d hd)
  · intro a ha he
    rw [hentry] at he
    have h0 : a.id = 0 := (Option.some_inj.mp he).symm
    exact hent a (h0 ▸ findNode_of_mem _ hN a ha)
  · intro a ha hxx
    rw [hexit] at hxx
    have h1 : a.id = 1 := by simpa using hxx
    exact hx a (h1 ▸ findNode_of_mem _ hN a ha)

/-- Every graph `CFGBuilder.build` returns satisfies the invariant, with
entry id 0 and exit ids `[1]`. -/
theorem buildCFG_inv (fname : String) (stmts : List Stmt) :
    (∃ c : Nat, cfgInv (buildCFG fname stmts).nodes c) ∧
    (buildCFG fname stmts).entry_node_id = some 0 ∧
    (buildCFG fname stmts).exit_node_ids = [1] := by
  have h0 : cfgInv ([] : List CFGNode) 0 :=
    ⟨rfl, fun i x h => Option.noConfusion h,
     fun i j x y hx => Option.noConfusion hx,
     fun x h => Option.noConfusion h, fun x h => Option.noConfusion h⟩
  have hA : cfgInv
      (createNode .entry none ⟨{ function_name := fname }, 0⟩).2.cfg.nodes
      (createNode .entry none ⟨{ function_name := fname }, 0⟩).2.counter :=
    createNode_inv h0 .entry none
  have hA2 : cfgInv
      (⟨{ function_name := fname,
          nodes := [{ id := 0, node_type := .entry, statement := none }],
          entry_node_id := some 0 }, 1⟩ : BuildSt).cfg.nodes
      (⟨{ function_name := fname,
          nodes := [{ id := 0, node_type := .entry, statement := none }],
          entry_node_id := some 0 }, 1⟩ : BuildSt).counter := hA
  have hB : cfgInv
      (createNode .exit none
        (⟨{ function_name := fname,
            nodes := [{ id := 0, node_type := .entry, statement := none }],
            entry_node_id := some 0 }, 1⟩ : BuildSt)).2.cfg.nodes
      (createNode .exit none
        (⟨{ function_name := fname,
            nodes := [{ id := 0, node_type := .entry, statement := none }],
            entry_node_id := some 0 }, 1⟩ : BuildSt)).2.counter :=
    createNode_inv hA2 .exit none
  set B2 : BuildSt :=
    ⟨{ function_name := fname,
       nodes := [{ id := 0, node_type := .entry, statement := none },
                 { id := 1, node_type := .exit, statement := none }],
       entry_node_id := some 0,
       exit_node_ids := [1] }, 2⟩ with hB2def
  have hB2inv : cfgInv B2.cfg.nodes B2.counter := hB
  have hB2eq : buildCFG fname stmts =
      (if stmts.isEmpty then (B2.edge 0 1).cfg
       else
         match buildSeq (stmts.length + 1) stmts 0 1 B2 with
         | (some cur, b3) => (b3.edge cur 1).cfg
         | (none, b3) => b3.cfg) := rfl
  rw [hB2eq]
  by_cases hE : stmts.isEmpty = true
  · rw [if_pos hE]
    refine ⟨⟨(B2.edge 0 1).counter, edge_inv hB2inv (by omega) (by omega)⟩, ?_, ?_⟩
    · exact (edge_fields B2 0 1).1
    · exact (edge_fields B2 0 1).2
  · rw [if_neg hE]
    have IH := buildSeq_inv (stmts.length + 1) stmts 0 1 B2 hB2inv (le_refl 2)
      (by omega) (by omega)
    rcases hres : buildSeq (stmts.length + 1) stmts 0 1 B2 with ⟨r, b3⟩
    rw [hres] at IH
    cases r with
    | none =>
      exact ⟨⟨b3.counter, IH.1.1⟩, IH.1.2.2.1, IH.1.2.2.2⟩
    | some cur =>
      refine ⟨⟨(b3.edge cur 1).counter,
        edge_inv IH.1.1 (IH.2 cur rfl) (by omega)⟩, ?_, ?_⟩
      · exact (edge_fields b3 cur 1).1.trans IH.1.2.2.1
      · exact (edge_fields b3 cur 1).2.trans IH.1.2.2.2

/-- C8: every CFG `CFGBuilder.build` returns has consistent edges — for
all nodes a and d, d is among the successors of a exactly when a is among
the predecessors of d — and the node the graph names as entry has no
predecessors while every node listed as an exit has no successors. -/
theorem C8_edge_consistency (fname : String) (stmts : List Stmt) :
    (∀ a ∈ (buildCFG fname stmts).nodes, ∀ d ∈ (buildCFG fname stmts).nodes,
      (d.id ∈ a.successors ↔ a.id ∈ d.predecessors)) ∧
    (∀ a ∈ (buildCFG fname stmts).nodes,
      (buildCFG fname stmts).entry_node_id = some a.id → a.predecessors = []) ∧
    (∀ a ∈ (buildCFG fname stmts).nodes,
      a.id ∈ (buildCFG fname stmts).exit_node_ids → a.successors = []) := by
  obtain ⟨⟨c, h1⟩, h2, h3⟩ := buildCFG_inv fname stmts
  exact cfgInv_transfer h1 h2 h3

/-- C8 witness: in the CFG built for `\x7b let y = p + 1; return y; \x7d`,
edge (2, 3) is recorded consistently on both endpoint nodes, the entry
node 0 has no predecessors, and the exit node 1 has no successors. -/
theorem C8_witness :
    ((3 : Nat) ∈
        ({ id := 2, node_type := .statement,
           statement := some (.letBinding "y" "p + 1" false 2 "let y = p + 1;" 1),
           successors := [3], predecessors := [0] } : CFGNode).successors ↔
      (2 : Nat) ∈
        ({ id := 3, node_type := .statement,
           statement := some (.ret (some "y") 3 "return y;" 1),
           successors := [1], predecessors := [2] } : CFGNode).predecessors) ∧
    ({ id := 0, node_type := .entry, statement := none,
       successors := [2], predecessors := [] } : CFGNode).predecessors = [] ∧
    ({ id := 1, node_type := .exit, statement := none,
       successors := [], predecessors := [3] } : CFGNode).successors = [] :=
  ⟨(C8_edge_consistency "w" (parse linearParamBody 1)).1
      ⟨2, .statement, some (.letBinding "y" "p + 1" false 2 "let y = p + 1;" 1), [3], [0]⟩
      (by decide)
      ⟨3, .statement, some (.ret (some "y") 3 "return y;" 1), [1], [2]⟩
      (by decide),
   (C8_edge_consistency "w" (parse linearParamBody 1)).2.1
      ⟨0, .entry, none, [2], []⟩ (by decide) rfl,
   (C8_edge_consistency "w" (parse linearParamBody 1)).2.2
      ⟨1, .exit, none, [], [3]⟩ (by decide) (by decide)⟩

end CairoParser
